import Mathlib

/-!
# virHEAT `data_prep.py` — a shallow embedding in Lean 4

This file embeds the data-preparation functions of the virHEAT repository
(`src/virheat/scripts/data_prep.py`) and proves or refutes the frozen claims
about them.

Modelling conventions:
* A text file is a `List String` of its lines, already stripped of the
  trailing newline (the Python code calls `.strip()` on every line it keeps;
  none of the inputs of interest carry leading whitespace).
* Python dictionaries are association lists that keep insertion order, the
  same order Python guarantees; `dictSet` mirrors `d[k] = v`
  (replace in place, or append a fresh key at the end).
* String splitting, numeric parsing and the like are re-implemented by
  structural recursion over `List Char` so that every definition evaluates
  inside the kernel.  `String.mk`/`String.data` mediate with string literals.
* Machine floats are modelled as `Rat`: the allele frequencies handled by the
  program are short decimal literals, far below any double rounding.
* Fallible code (`sys.exit`, uncaught `KeyError`/`IndexError`/`ValueError`…)
  is modelled with `Except String`, the error string naming the Python
  exception or abort.
-/

/-! ## Character/string primitives (structural versions of the Python ones) -/

/-- Split a list of characters at every occurrence of `c`
(the semantics of Python's `str.split(c)` for a one-character separator,
and of `String.splitOn` for such separators). -/
def splitListOn (c : Char) : List Char → List (List Char)
  | [] => [[]]
  | x :: xs =>
    let r := splitListOn c xs
    if x = c then [] :: r
    else (x :: r.headD []) :: r.tail

/-- `splitListOn` never returns the empty list. -/
theorem splitListOn_ne_nil (c : Char) (l : List Char) : splitListOn c l ≠ [] := by
  cases l with
  | nil => simp [splitListOn]
  | cons x xs =>
    simp only [splitListOn]
    split <;> simp

/-- Python's `s.split(c)` on strings. -/
def pySplit (c : Char) (s : String) : List String :=
  (splitListOn c s.data).map (fun l => ⟨l⟩)

theorem pySplit_ne_nil (c : Char) (s : String) : pySplit c s ≠ [] := by
  simp [pySplit, splitListOn_ne_nil]

/-- `startsWithL p l` : `p` is an initial segment of `l`. -/
def startsWithL : List Char → List Char → Bool
  | [], _ => true
  | _ :: _, [] => false
  | p :: ps, x :: xs => p = x && startsWithL ps xs

/-- Python's `s.startswith(p)`. -/
def pyStartsWith (s p : String) : Bool := startsWithL p.data s.data

/-- ASCII digit test (`str.isdecimal` on the inputs the program sees). -/
def isDigitChar (c : Char) : Bool := 48 ≤ c.toNat && c.toNat ≤ 57

/-- Python's `str.isdecimal()`: nonempty and all digits. -/
def isDecimalL (l : List Char) : Bool := !l.isEmpty && l.all isDigitChar

def digitVal (c : Char) : Nat := c.toNat - 48

/-- Numeric value of a digit string (`int(s)` for an all-digit `s`). -/
def natOfDigits (l : List Char) : Nat := l.foldl (fun a c => a * 10 + digitVal c) 0

/-- Remove the first occurrence of `c` (Python's `s.replace(c, '', 1)`). -/
def removeFirst (c : Char) : List Char → List Char
  | [] => []
  | x :: xs => if x = c then xs else x :: removeFirst c xs

def isSpaceChar (c : Char) : Bool :=
  c.toNat = 32 || c.toNat = 9 || c.toNat = 10 || c.toNat = 13

/-- Python's `str.strip()`. -/
def trimL (l : List Char) : List Char :=
  ((l.dropWhile isSpaceChar).reverse.dropWhile isSpaceChar).reverse

/-- Python's `int(s)` as an `Option`: optional sign, then decimal digits,
surrounding whitespace ignored; `none` models a `ValueError`. -/
def pyInt (s : String) : Option Int :=
  let t := trimL s.data
  match t with
  | '-' :: rest => if isDecimalL rest then some (-(natOfDigits rest : Int)) else none
  | '+' :: rest => if isDecimalL rest then some (natOfDigits rest : Int) else none
  | _ => if isDecimalL t then some (natOfDigits t : Int) else none

/-- Digits of `n`, most significant first (auxiliary, fuel-driven). -/
def natToCharsAux : Nat → Nat → List Char
  | 0, _ => []
  | fuel + 1, n =>
    if n = 0 then [] else natToCharsAux fuel (n / 10) ++ [Char.ofNat (48 + n % 10)]

/-- Decimal rendering of a natural number (Python's `str(n)`). -/
def natToStr (n : Nat) : String :=
  if n = 0 then "0" else ⟨natToCharsAux (n + 1) n⟩

/-- Decimal rendering of an integer (Python's `str(n)`). -/
def intToStr (n : Int) : String :=
  if n < 0 then "-" ++ natToStr n.natAbs else natToStr n.natAbs

/-! ## `convert_string` — coercion of VCF scalar values -/

/-- The scalar values stored in the parsed VCF dictionary: Python
`str` / `int` / `float` / `None`.  Floats are modelled as rationals. -/
inductive VVal where
  | str : String → VVal
  | int : Int → VVal
  | float : Rat → VVal
  | null : VVal
deriving DecidableEq, Repr

/-- Value of a digit string with exactly one `.` removed
(`float(s)` in the branch `convert_string` uses it):
`a.b` denotes `(a·10^|b| + b) / 10^|b|`.  Built with `mkRat` so that it
evaluates inside the kernel. -/
def parseFloatL (l : List Char) : Rat :=
  let intPart := l.takeWhile (fun c => c ≠ '.')
  let fracPart := (l.dropWhile (fun c => c ≠ '.')).tail
  mkRat (natOfDigits intPart * 10 ^ fracPart.length + natOfDigits fracPart)
    (10 ^ fracPart.length)

/-- `convert_string` from `data_prep.py`: strip newlines, then coerce
integer-looking strings to `int`, decimal-looking strings to `float`,
anything else stays a string. -/
def convert_string (s : String) : VVal :=
  let cs := s.data.filter (fun c => c ≠ '\n')
  if isDecimalL cs then .int (natOfDigits cs)
  else if isDecimalL (removeFirst '.' cs) then .float (parseFloatL cs)
  else .str ⟨cs⟩

/-- Python's `str(...)` of a stored scalar, as used when the f-string
builds a mutation identifier.  (Float rendering is approximated by the
`num/den` form; no claim depends on it — genomic positions are integers.) -/
def renderVVal : VVal → String
  | .str s => s
  | .int n => intToStr n
  | .float q => intToStr q.num ++ "/" ++ natToStr q.den
  | .null => "None"

/-! ## The VCF dictionary (`read_vcf`'s accumulator) -/

/-- The column-oriented record set `read_vcf` builds: an insertion-ordered
mapping from column name to the list of per-allele values. -/
abbrev VDict := List (String × List VVal)

def dictKeys (d : VDict) : List String := d.map (·.1)

/-- Python `d[k] = []`: overwrite in place if present, else append. -/
def dictSet (d : VDict) (k : String) : VDict :=
  if d.any (fun p => p.1 = k) then
    d.map (fun p => if p.1 = k then (p.1, ([] : List VVal)) else p)
  else d ++ [(k, [])]

/-- Python `d[k].extend(vs)` (a run of `d[k].append(·)` calls). -/
def appendMany (d : VDict) (k : String) (vs : List VVal) : VDict :=
  d.map (fun p => if p.1 = k then (p.1, p.2 ++ vs) else p)

/-- Python `d[k]`, as an `Option` (so a missing key is visible). -/
def dlookup (d : VDict) (k : String) : Option (List VVal) :=
  (d.find? (fun p => p.1 = k)).map (·.2)

/-! ## `read_vcf` -/

/-- Header candidates: lines starting with `#CHROM`, tab-split. -/
def headerLinesOf (fileLines : List String) : List (List String) :=
  (fileLines.filter (fun l => pyStartsWith l "#CHROM")).map (pySplit '\t')

/-- Data lines: lines starting with the reference id, tab-split. -/
def selectedOf (fileLines : List String) (reference : String) : List (List String) :=
  (fileLines.filter (fun l => pyStartsWith l reference)).map (pySplit '\t')

/-- The first six canonical column names (`header[0:6]`). -/
def hdr6Of (fileLines : List String) : List String :=
  ((headerLinesOf fileLines).headD []).take 6

/-- `length_variants`: the number of comma-separated ALT alleles of a line. -/
def kOf (line : List String) : Nat := (pySplit ',' (line.getD 4 "")).length

/-- The semicolon-separated INFO entries of a line that contain `=`. -/
def infoEntries (line : List String) : List String :=
  (pySplit ';' (line.getD 7 "")).filter (fun e => e.data.any (fun c => c = '='))

/-- `info.split("=")[0]`. -/
def infoKeyOf (e : String) : String := (pySplit '=' e).headD ""

/-- The values contributed by one INFO entry: the comma-split of the part
after `=`, each coerced by `convert_string`. -/
def infoValsOf (e : String) : List VVal :=
  (pySplit ',' ((pySplit '=' e).getD 1 "")).map convert_string

/-- The INFO keys of a line. -/
def infoKeys (line : List String) : List String := (infoEntries line).map infoKeyOf

/-- The entries one of the first six canonical columns contributes for a
line with `k` alleles: slot `i` holds the `i`-th comma-separated value of
the column, falling back to the first value when the column has fewer than
`k` values (the `except IndexError` branch of `read_vcf`). -/
def sixColEntries (s : String) (k : Nat) : List VVal :=
  let sublines := pySplit ',' s
  (List.range k).map (fun i => convert_string (sublines.getD i (sublines.getD 0 "")))

/-- Mutation types of a line, one per ALT allele: REF and ALT of equal
length ⇒ SNV, ALT longer ⇒ INS, ALT shorter ⇒ DEL. -/
def mutTypes (line : List String) : List VVal :=
  (pySplit ',' (line.getD 4 "")).map (fun alt =>
    if (line.getD 3 "").data.length = alt.data.length then VVal.str "SNV"
    else if (line.getD 3 "").data.length < alt.data.length then VVal.str "INS"
    else VVal.str "DEL")

/-- The `visited_keys` list after a line has been processed. -/
def visitedOf (hdr6 : List String) (line : List String) : List String :=
  hdr6 ++ ["MUT_TYPE_"] ++ infoKeys line

/-- `(key, contribution)` pairs of the first-six-columns loop, in order. -/
def sixPairs (line : List String) (k : Nat) : List String → Nat → List (String × List VVal)
  | [], _ => []
  | key :: rest, idx =>
    (key, sixColEntries (line.getD idx "") k) :: sixPairs line k rest (idx + 1)

/-- Everything one data line appends to the dictionary, in append order:
first the six canonical columns, then `MUT_TYPE_`, then the line's INFO
entries, then `None`-padding for every other key of the dictionary. -/
def linePairs (hdr6 : List String) (line : List String) (dkeys : List String) :
    List (String × List VVal) :=
  sixPairs line (kOf line) hdr6 0
    ++ [("MUT_TYPE_", mutTypes line)]
    ++ (infoEntries line).map (fun e => (infoKeyOf e, infoValsOf e))
    ++ (dkeys.filter (fun kk => decide (kk ∉ visitedOf hdr6 line))).map
        (fun kk => (kk, List.replicate (kOf line) VVal.null))

/-- Process one data line of the fill loop of `read_vcf`. -/
def fillLine (hdr6 : List String) (d : VDict) (line : List String) : VDict :=
  (linePairs hdr6 line (dictKeys d)).foldl (fun dd q => appendMany dd q.1 q.2) d

/-- The key-collection passes of `read_vcf`: the first six header names,
then `MUT_TYPE_`, then every INFO key of every selected line, each mapped
to `[]`. -/
def initDict (hdr6 : List String) (selected : List (List String)) : VDict :=
  let d1 := hdr6.foldl dictSet []
  let d2 := dictSet d1 "MUT_TYPE_"
  selected.foldl
    (fun d line => (infoEntries line).foldl (fun dd e => dictSet dd (infoKeyOf e)) d) d2

/-- `read_vcf` from `data_prep.py`: returns the empty dictionary (and a
warning) when no `#CHROM` header line exists, otherwise builds the
column-oriented record set over the lines starting with `reference`. -/
def read_vcf (fileLines : List String) (reference : String) : VDict :=
  if (headerLinesOf fileLines).isEmpty then []
  else
    let hdr6 := hdr6Of fileLines
    let selected := selectedOf fileLines reference
    selected.foldl (fillLine hdr6) (initDict hdr6 selected)

example :
    dlookup (read_vcf ["#CHROM\tPOS\tID\tREF\tALT\tQUAL\tFILTER\tINFO",
      "r\t10\t.\tA\tT\t.\tPASS\tAF=0.5"] "r") "POS" = some [VVal.int 10] := by decide

example :
    dlookup (read_vcf ["#CHROM\tPOS\tID\tREF\tALT\tQUAL\tFILTER\tINFO",
      "r\t10\t.\tA\tT\t.\tPASS\tAF=0.5"] "r") "AF" = some [VVal.float (mkRat 1 2)] := by decide

/-! ## `extract_vcf_data` -/

/-- `d[k][i]` with Python's exceptions: a missing key is a `KeyError`,
an out-of-range index an `IndexError`. -/
def getVal (d : VDict) (k : String) (i : Nat) : Except String VVal :=
  match dlookup d k with
  | Option.none => .error ("KeyError: " ++ k)
  | some l =>
    match l.get? i with
    | Option.none => .error "IndexError"
    | some v => .ok v

/-- Python's `v >= t` for a stored scalar against a float: numeric
values compare, anything else is a `TypeError`. -/
def vvGE (v : VVal) (t : Rat) : Except String Bool :=
  match v with
  | .int n => .ok (decide (t ≤ (n : Rat)))
  | .float q => .ok (decide (t ≤ q))
  | _ => .error "TypeError"

/-- The numeric value of a scalar known to be numeric. -/
def vvRatD : VVal → Rat
  | .int n => (n : Rat)
  | .float q => q
  | _ => 0

/-- One iteration of the frequency-list loop of `extract_vcf_data`:
`none` models `continue` (below-threshold), `some` an appended
`(mutation-string, AF)` pair. -/
def freqEntry (d : VDict) (threshold : Rat) (scores : Bool) (idx : Nat) :
    Except String (Option (String × Rat)) :=
  match getVal d "AF" idx with
  | .error e => .error e
  | .ok af =>
    match vvGE af threshold with
    | .error e => .error e
    | .ok b =>
      if !b then .ok Option.none
      else
        let core := fun (aaSuffix : Option String) =>
          match getVal d "POS" idx, getVal d "REF" idx,
              getVal d "ALT" idx, getVal d "MUT_TYPE_" idx with
          | .ok pos, .ok rf, .ok alt, .ok mt =>
            let base := renderVVal pos ++ "_" ++ renderVVal rf ++ "_" ++
              renderVVal alt ++ "_" ++ renderVVal mt
            .ok (some (match aaSuffix with
              | some aa => base ++ "_" ++ aa
              | Option.none => base, vvRatD af))
          | .error e, _, _, _ => .error e
          | _, .error e, _, _ => .error e
          | _, _, .error e, _ => .error e
          | _, _, _, .error e => .error e
        if scores then
          match getVal d "EFF" idx with
          | .error e => .error e
          | .ok .null => core (some "-")
          | .ok (.str s) =>
            match (pySplit '|' s).get? 3 with
            | Option.none => .error "IndexError"
            | some aa => core (some aa)
          | .ok _ => .error "AttributeError"
        else core Option.none

instance {ε α : Type _} [DecidableEq ε] [DecidableEq α] : DecidableEq (Except ε α) :=
  fun x y =>
    match x, y with
    | .error e, .error f => decidable_of_iff (e = f) ⟨fun h => h ▸ rfl, fun h => by injection h⟩
    | .error _, .ok _ => isFalse (fun h => by injection h)
    | .ok _, .error _ => isFalse (fun h => by injection h)
    | .ok a, .ok b => decidable_of_iff (a = b) ⟨fun h => h ▸ rfl, fun h => by injection h⟩

/-- `Except`-valued `mapM` over a list, stopping at the first error. -/
def mapME (f : α → Except String β) : List α → Except String (List β)
  | [] => .ok []
  | a :: as =>
    match f a with
    | .error e => .error e
    | .ok b =>
      match mapME f as with
      | .error e => .error e
      | .ok bs => .ok (b :: bs)

/-- The per-file frequency list of `extract_vcf_data`: iterate over the
indices of `d["#CHROM"]` (a `KeyError` when that column is missing, as for
a header-less file) and keep the above-threshold entries. -/
def freqList (d : VDict) (threshold : Rat) (scores : Bool) :
    Except String (List (String × Rat)) :=
  match dlookup d "#CHROM" with
  | Option.none => .error "KeyError: #CHROM"
  | some chrom =>
    match mapME (freqEntry d threshold scores) (List.range chrom.length) with
    | .error e => .error e
    | .ok opts => .ok (opts.filterMap id)

/-- The numeric sort key of a mutation identifier:
`int(x.split("_")[0])`, `none` modelling the `ValueError`. -/
def numKey (m : String) : Option Int := pyInt ((pySplit '_' m).headD "")

/-- Total version of the key (used after the parses are known good). -/
def numKeyD (m : String) : Int := (numKey m).getD 0

/-- The comparison `sorted(..., key=lambda x: int(x.split("_")[0]))` sorts by. -/
def numLe (a b : String) : Prop := numKeyD a ≤ numKeyD b

instance : DecidableRel numLe := fun a b => Int.decLe (numKeyD a) (numKeyD b)

instance : IsTotal String numLe := ⟨fun _ _ => Int.le_total _ _⟩

instance : IsTrans String numLe := ⟨fun _ _ _ => Int.le_trans⟩

/-- The set `{x[0] for li in frequency_lists for x in li}` (one fixed
iteration order of the Python set). -/
def uniqueRawMuts (fls : List (List (String × Rat))) : List String :=
  ((fls.map (fun li => li.map (·.1))).flatten).dedup

/-- `extract_vcf_data` from `data_prep.py` over already-read file contents
(file names are file-system bookkeeping and are not modelled).  Per file it
builds the frequency list, then forms the set of mutation identifiers,
sorts it by numeric position (a `ValueError` if some first token is not an
integer, as in Python), and aborts when no variant exists at all. -/
def extract_vcf_data (files : List (List String)) (reference : String)
    (threshold : Rat) (scores : Bool) :
    Except String (List (List (String × Rat)) × List String) :=
  match mapME (fun f => freqList (read_vcf f reference) threshold scores) files with
  | .error e => .error e
  | .ok fls =>
    match mapME (fun m => match numKey m with
        | some n => Except.ok n
        | Option.none => Except.error "ValueError") (uniqueRawMuts fls) with
    | .error e => .error e
    | .ok _ =>
      if (List.insertionSort numLe (uniqueRawMuts fls)).isEmpty then
        .error ("ERROR: No variants to " ++ reference ++ " in all vcf files!")
      else .ok (fls, List.insertionSort numLe (uniqueRawMuts fls))

example :
    extract_vcf_data [["#CHROM\tPOS\tID\tREF\tALT\tQUAL\tFILTER\tINFO",
      "r\t10\t.\tA\tT\t.\tPASS\tAF=0.9", "r\t9\t.\tG\tC\t.\tPASS\tAF=0.8"]] "r" 0 false =
    .ok ([[("10_A_T_SNV", mkRat 9 10), ("9_G_C_SNV", mkRat 4 5)]],
      ["9_G_C_SNV", "10_A_T_SNV"]) := by decide

/-! ## `annotate_non_covered_regions` (coverage masking) -/

/-- One row of a per-base coverage table (`#chr`, `pos`, `coverage`). -/
structure CovRow where
  chr : String
  pos : Int
  coverage : Rat
deriving DecidableEq, Repr

/-- The mask decision for one matrix cell, exactly as in
`annotate_non_covered_regions`: restrict the sample's coverage table to the
reference, look up the first row at the mutation's position; a cell becomes
missing when no such row exists, or when the cell is `0` and that row's
depth is `≤ min_coverage`. -/
def maskCell (covTable : List CovRow) (reference : String) (min_coverage : Rat)
    (freq : Rat) (mut_pos : Int) : Bool :=
  let cov := covTable.filter (fun r => r.chr = reference)
  match cov.find? (fun r => r.pos = mut_pos) with
  | Option.none => true
  | some r => decide (freq = 0) && decide (r.coverage ≤ min_coverage)

/-- The genomic position encoded in a mutation identifier
(`int(mutation.split("_")[0])`; positions in this pipeline always parse). -/
def mutPos (m : String) : Int := (numKey m).getD 0

/-- One sample row of `annotate_non_covered_regions`, for a sample whose
coverage file was found: each cell either survives (`some` frequency) or is
replaced by NaN-and-masked (`none`). -/
def annotate_row (covTable : List CovRow) (reference : String) (min_coverage : Rat)
    (unique_mutations : List String) (row : List Rat) : List (Option Rat) :=
  (unique_mutations.zip row).map (fun p =>
    if maskCell covTable reference min_coverage p.2 (mutPos p.1) then Option.none
    else some p.2)

/-! ## `delete_common_mutations` / `delete_n_mutations` -/

/-- The values of column `idx` across all sample rows. -/
def colVals (A : List (List Rat)) (idx : Nat) : List Rat :=
  A.map (fun row => row.getD idx 0)

/-- Python's `max` on a list (left fold, default for the empty list). -/
def maxListD (l : List Rat) (d : Rat) : Rat := l.foldl max d
def minListD (l : List Rat) (d : Rat) : Rat := l.foldl min d

/-- The deletion test of `delete_common_mutations` on one column: all
entries zero, or all entries positive with spread `< 0.5`. -/
def commonDel (col : List Rat) : Bool :=
  col.all (fun x => decide (x = 0)) ||
    (col.all (fun x => decide (0 < x)) &&
      decide (maxListD col.tail (col.headD 0) - minListD col.tail (col.headD 0) < mkRat 1 2))

/-- The deletion test of `delete_n_mutations` on one column: the number of
samples with a positive value is `≤ min_mut`. -/
def nDel (min_mut : Nat) (col : List Rat) : Bool :=
  decide (col.countP (fun x => decide (0 < x)) ≤ min_mut)

/-- The column indices a filter keeps (complement of `mut_to_del`,
in increasing order). -/
def keptIndices (A : List (List Rat)) (p : List Rat → Bool) : List Nat :=
  (List.range (A.headD []).length).filter (fun i => !(p (colVals A i)))

/-- `np.delete(A, mut_to_del, axis=1)` : keep the listed columns of
every row, in order. -/
def filterCols (A : List (List Rat)) (keep : List Nat) : List (List Rat) :=
  A.map (fun row => keep.map (fun i => row.getD i 0))

/-- The in-place `del unique_mutations[idx]` loop: after the call the
caller's list holds exactly the kept indices, in order. -/
def filterAxis (muts : List String) (keep : List Nat) : List String :=
  keep.map (fun i => muts.getD i "")

/-- `delete_common_mutations` from `data_prep.py`.  The Python function
returns only the new matrix and *mutates* the caller's `unique_mutations`
list in place; the second component below is the state of that list after
the call. -/
def delete_common_mutations (A : List (List Rat)) (muts : List String) :
    List (List Rat) × List String :=
  (filterCols A (keptIndices A commonDel), filterAxis muts (keptIndices A commonDel))

/-- `delete_n_mutations` from `data_prep.py`, with the same convention:
the second component is the caller's list after the in-place deletions. -/
def delete_n_mutations (A : List (List Rat)) (muts : List String) (min_mut : Nat) :
    List (List Rat) × List String :=
  (filterCols A (keptIndices A (nDel min_mut)),
    filterAxis muts (keptIndices A (nDel min_mut)))

example : delete_common_mutations [[1, 0], [0, 0]] ["a", "b"] = ([[1], [0]], ["a"]) := by
  decide

/-! ## `parse_gff3` -/

/-- One indexed GFF3 feature: its attribute mapping and the fixed-position
`start`/`stop`/`strand` columns.  (Python stores all four in one dict; an
attribute literally named `start`, `stop` or `strand` would collide there —
no claim involves such inputs.) -/
structure GffEntry where
  attrs : List (String × String)
  start : Int
  stop : Int
  strand : String
deriving DecidableEq, Repr

/-- The annotation index: feature type → feature id → entry,
insertion-ordered like the Python dicts. -/
abbrev Gff3Dict := List (String × List (String × GffEntry))

def gffKeys (d : Gff3Dict) : List String := d.map (·.1)

/-- Ensure the top-level key `typ` exists (`gff3_dict[typ] = {}`). -/
def gffEnsureType (d : Gff3Dict) (typ : String) : Gff3Dict :=
  if d.any (fun p => p.1 = typ) then d else d ++ [(typ, [])]

/-- `gff3_dict[typ][aid] = {}` (replace in place or append). -/
def gffSetId (d : Gff3Dict) (typ aid : String) : Gff3Dict :=
  d.map (fun p =>
    if p.1 = typ then
      (p.1,
        if p.2.any (fun q => q.1 = aid) then
          p.2.map (fun q => if q.1 = aid then (q.1, ⟨[], 0, 0, ""⟩) else q)
        else p.2 ++ [(aid, ⟨[], 0, 0, ""⟩)])
    else p)

/-- Update the entry of `aid` under `typ` (no-op when absent — Python would
raise a `KeyError` there, a state unreachable for the well-formed files the
theorems quantify over, where every processed line sets its own id first). -/
def gffModify (d : Gff3Dict) (typ aid : String) (f : GffEntry → GffEntry) : Gff3Dict :=
  d.map (fun p =>
    if p.1 = typ then (p.1, p.2.map (fun q => if q.1 = aid then (q.1, f q.2) else q))
    else p)

/-- `entry[identifier] = val` on the attribute mapping. -/
def attrSet (e : GffEntry) (identifier val : String) : GffEntry :=
  { e with attrs :=
      if e.attrs.any (fun q => q.1 = identifier) then
        e.attrs.map (fun q => if q.1 = identifier then (q.1, val) else q)
      else e.attrs ++ [(identifier, val)] }

/-- The attribute loop of `parse_gff3` over one line's `key=value` list,
threading the mutable `attribute_id`.  Errors model Python exceptions:
a `ValueError` when an attribute does not split into exactly two parts,
a `NameError` when a non-`ID` attribute is processed before any
`attribute_id` was ever assigned. -/
def gffAttrFold (typ : String) : Gff3Dict × Option String → List String →
    Except String (Gff3Dict × Option String)
  | st, [] => .ok st
  | (d, aid), attr :: rest =>
    let parts := pySplit '=' attr
    if parts.length ≠ 2 then .error "ValueError"
    else
      let identifier := parts.headD ""
      let val := parts.getD 1 ""
      let d2 := if identifier = "ID" ∧ ¬ d.any (fun p => p.1 = "ID") then gffSetId d typ val else d
      let aid2 := if identifier = "ID" ∧ ¬ d.any (fun p => p.1 = "ID") then some val else aid
      if identifier ≠ "ID" then
        match aid2 with
        | Option.none => .error "NameError"
        | some a => gffAttrFold typ (gffModify d2 typ a (fun e => attrSet e identifier val), aid2) rest
      else gffAttrFold typ (d2, aid2) rest

/-- Process one line of the GFF3 file (skip, abort, or extend the index). -/
def gffStep (reference : String) (st : Gff3Dict × Option String) (line : String) :
    Except String (Gff3Dict × Option String) :=
  if ¬ pyStartsWith line reference then .ok st
  else if (pySplit '\t' line).length < 9 then .error "IndexError"
  else if ¬ pyStartsWith ((pySplit '\t' line).getD 8 "") "ID=" then .ok st
  else
    match gffAttrFold ((pySplit '\t' line).getD 2 "")
        (gffEnsureType st.1 ((pySplit '\t' line).getD 2 ""), st.2)
        (pySplit ';' ((pySplit '\t' line).getD 8 "")) with
    | .error e => .error e
    | .ok (d, aid) =>
      match aid with
      | Option.none => .error "NameError"
      | some a =>
        match pyInt ((pySplit '\t' line).getD 3 ""),
            pyInt ((pySplit '\t' line).getD 4 "") with
        | some b, some e =>
          .ok (gffModify d ((pySplit '\t' line).getD 2 "") a
            (fun en => ⟨en.attrs, b, e, (pySplit '\t' line).getD 6 ""⟩), some a)
        | _, _ => .error "ValueError"

/-- Fold `gffStep` over the file. -/
def gffFold (reference : String) (st : Gff3Dict × Option String) :
    List String → Except String (Gff3Dict × Option String)
  | [] => .ok st
  | l :: ls =>
    match gffStep reference st l with
    | .error e => .error e
    | .ok st2 => gffFold reference st2 ls

/-- `parse_gff3` from `data_prep.py`: build the index over the lines that
start with the reference and whose attribute column starts with `ID=`;
abort (`sys.exit`) when the resulting index is empty. -/
def parse_gff3 (fileLines : List String) (reference : String) : Except String Gff3Dict :=
  match gffFold reference ([], Option.none) fileLines with
  | .error e => .error e
  | .ok st =>
    if st.1.isEmpty then .error ("ERROR: " ++ reference ++ " not found in gff3 file.")
    else .ok st.1

example :
    parse_gff3 ["r\tx\tgene\t3\t20\t.\t+\t.\tID=g1;Name=G"] "r" =
    .ok [("gene", [("g1", ⟨[("Name", "G")], 3, 20, "+"⟩)])] := by decide

example :
    parse_gff3 ["r\tx\tgene\t3\t20\t.\t+\t.\tParent=g0"] "r" =
    .error "ERROR: r not found in gff3 file." := by decide

/-! ## `zoom_to_genomic_regions` -/

/-- `zoom_to_genomic_regions` from `data_prep.py`: keep the mutations whose
position lies in the inclusive window. -/
def zoom_to_genomic_regions (unique_mutations : List String) (start_stop : Int × Int) :
    List String :=
  unique_mutations.filter (fun m =>
    decide (start_stop.1 ≤ mutPos m) && decide (mutPos m ≤ start_stop.2))

/-! ## `create_track_dict` -/

/-- A gene as laid out: display name plus the `(start, stop, strand)`
tuple the Python code carries along. -/
structure Gene where
  name : String
  start : Int
  stop : Int
  strand : String
deriving DecidableEq, Repr

/-- Python's `m in range(a, b)`: `a ≤ m < b` (half-open). -/
def inPyRange (m a b : Int) : Bool := decide (a ≤ m) && decide (m < b)

/-- The candidate features collected by `create_track_dict` before
deduplication: for every mutation position, every requested feature type,
every indexed feature whose `[start, stop)` interval contains the position,
with the `Name` attribute preferred over the raw feature id.  (Python
accumulates these in a `set`; the list keeps one arbitrary-but-fixed
iteration order, which the claims' statements do not depend on.) -/
def candidatesOf (unique_mutations : List String) (gff3_info : Gff3Dict)
    (annotation_type : List String) : List Gene :=
  unique_mutations.flatMap (fun m =>
    annotation_type.flatMap (fun ty =>
      match gff3_info.find? (fun p => p.1 = ty) with
      | Option.none => []
      | some p =>
        p.2.filterMap (fun q =>
          if inPyRange (mutPos m) q.2.start q.2.stop then
            some ⟨((q.2.attrs.find? (fun r => r.1 = "Name")).map (·.2)).getD q.1,
              q.2.start, q.2.stop, q.2.strand⟩
          else Option.none)))

/-- `{element[0]: [element[1:4]] for element in genes_with_mutations}` —
a dictionary keyed by the display name alone: one entry per name, a later
tuple overwriting an earlier one's value in place. -/
def geneDictOf (cands : List Gene) : List Gene :=
  cands.foldl (fun acc g =>
    if acc.any (fun h => h.name = g.name) then
      acc.map (fun h => if h.name = g.name then g else h)
    else acc ++ [g]) []

/-- The tuple comparison Python's `sorted(..., key=lambda x: x[1][0])`
sorts by: lexicographic on `(start, stop, strand)`. -/
def geneLe (a b : Gene) : Prop :=
  a.start < b.start ∨ (a.start = b.start ∧
    (a.stop < b.stop ∨ (a.stop = b.stop ∧ a.strand ≤ b.strand)))

instance : DecidableRel geneLe := fun a b => by unfold geneLe; infer_instance

instance : IsTotal Gene geneLe := by
  constructor
  intro a b
  unfold geneLe
  rcases lt_trichotomy a.start b.start with h | h | h
  · exact Or.inl (Or.inl h)
  · rcases lt_trichotomy a.stop b.stop with h2 | h2 | h2
    · exact Or.inl (Or.inr ⟨h, Or.inl h2⟩)
    · rcases le_total a.strand b.strand with h3 | h3
      · exact Or.inl (Or.inr ⟨h, Or.inr ⟨h2, h3⟩⟩)
      · exact Or.inr (Or.inr ⟨h.symm, Or.inr ⟨h2.symm, h3⟩⟩)
    · exact Or.inr (Or.inr ⟨h.symm, Or.inl h2⟩)
  · exact Or.inr (Or.inl h)

instance : IsTrans Gene geneLe := by
  constructor
  intro a b c hab hbc
  unfold geneLe at *
  rcases hab with h1 | ⟨e1, h1⟩
  · rcases hbc with h2 | ⟨e2, _⟩
    · exact Or.inl (h1.trans h2)
    · exact Or.inl (e2 ▸ h1)
  · rcases hbc with h2 | ⟨e2, h2⟩
    · exact Or.inl (e1 ▸ h2)
    · refine Or.inr ⟨e1.trans e2, ?_⟩
      rcases h1 with h1 | ⟨f1, h1⟩
      · rcases h2 with h2 | ⟨f2, _⟩
        · exact Or.inl (h1.trans h2)
        · exact Or.inl (f2 ▸ h1)
      · rcases h2 with h2 | ⟨f2, h2⟩
        · exact Or.inl (f1 ▸ h2)
        · exact Or.inr ⟨f1.trans f2, h1.trans h2⟩

/-- The greedy track search: the index of the first track whose recorded
last stop is `≤ start` (scanning from track `0`); if every existing track
overlaps, the result is the list's length — the index of the freshly
opened track. -/
def firstFree (stops : List Int) (strt : Int) : Nat :=
  match stops with
  | [] => 0
  | s :: rest => if strt < s then firstFree rest strt + 1 else 0

/-- Record a gene's stop in its track (extending the list when the gene
opened a new track). -/
def updateStops (stops : List Int) (t : Nat) (stp : Int) : List Int :=
  if t < stops.length then stops.set t stp else stops ++ [stp]

/-- The assignment loop of `create_track_dict` over the sorted genes:
returns the `(gene, track)` pairs in processing order together with the
final `track_stops` list. -/
def assignTracks (stops : List Int) : List Gene → List (Gene × Nat) × List Int
  | [] => ([], stops)
  | g :: gs =>
    let t := firstFree stops g.start
    let res := assignTracks (updateStops stops t g.stop) gs
    ((g, t) :: res.1, res.2)

/-- `create_track_dict` from `data_prep.py`: collect the features hit by a
mutation, deduplicate (the Python `set`), key them by display name, sort by
the `(start, stop, strand)` tuple, then assign tracks greedily starting
from `track_stops = [0]`.  Returns the laid-out genes with their track
indices and the total track count. -/
def create_track_dict (unique_mutations : List String) (gff3_info : Gff3Dict)
    (annotation_type : List String) : List (Gene × Nat) × Nat :=
  if ((candidatesOf unique_mutations gff3_info annotation_type).dedup).isEmpty then ([], 0)
  else
    ((assignTracks [0] (List.insertionSort geneLe
        (geneDictOf (candidatesOf unique_mutations gff3_info annotation_type).dedup))).1,
      (assignTracks [0] (List.insertionSort geneLe
        (geneDictOf (candidatesOf unique_mutations gff3_info annotation_type).dedup))).2.length)

example :
    create_track_dict ["15_A_T_SNV", "25_A_T_SNV", "65_A_T_SNV"]
      [("gene", [("g1", ⟨[], 10, 50, "+"⟩), ("g2", ⟨[], 20, 40, "+"⟩),
        ("g3", ⟨[], 60, 80, "+"⟩)])] ["gene"] =
    ([(⟨"g1", 10, 50, "+"⟩, 0), (⟨"g2", 20, 40, "+"⟩, 1), (⟨"g3", 60, 80, "+"⟩, 0)], 2) := by
  decide

/-! ## Claim C1 — coverage masking (cell-level condition) -/

/-- `maskCell` as an explicit match on the coverage lookup. -/
theorem maskCell_eq (ct : List CovRow) (ref : String) (mc fr : Rat) (p : Int) :
    maskCell ct ref mc fr p =
      (match (ct.filter (fun r => r.chr = ref)).find? (fun r => r.pos = p) with
        | Option.none => true
        | some r => decide (fr = 0) && decide (r.coverage ≤ mc)) := rfl

/-- Claim C1, as stated by the spec, is false on the code: the code masks a
cell whenever the coverage table has no row at the mutation's position,
even when the cell's frequency is positive.  Here a cell with frequency
`1 > 0` whose position `5` is absent from the sample's coverage table is
turned into a missing value. -/
theorem C1_counterexample :
    annotate_row [⟨"r", 99, 100⟩] "r" 20 ["5_A_T_SNV"] [1] = [Option.none] ∧
      (0 : Rat) < 1 := by
  constructor
  · decide
  · decide

/-- Claim C1 (amended): a cell of `annotate_row` is marked missing iff the
sample's coverage table, restricted to the reference, has no row at the
mutation's position, or the cell's value is `0` and the first such row's
depth is `≤ min_coverage`; a cell for which this condition fails keeps its
value.  (The spec's original claim — value `0` required in both disjuncts,
so that positive-frequency cells are never masked — fails on the no-row
case, see `C1_counterexample`.) -/
theorem C1_mask_iff (ct : List CovRow) (ref : String) (mc : Rat)
    (muts : List String) (row : List Rat) (j : Nat)
    (hj : j < (muts.zip row).length) :
    ((annotate_row ct ref mc muts row)[j]? = some Option.none ↔
      ((ct.filter (fun r => r.chr = ref)).find?
          (fun r => r.pos = mutPos (muts.getD j "")) = Option.none ∨
        ∃ r, (ct.filter (fun r => r.chr = ref)).find?
            (fun r => r.pos = mutPos (muts.getD j "")) = some r ∧
          row.getD j 0 = 0 ∧ r.coverage ≤ mc)) ∧
    (¬ ((ct.filter (fun r => r.chr = ref)).find?
          (fun r => r.pos = mutPos (muts.getD j "")) = Option.none ∨
        ∃ r, (ct.filter (fun r => r.chr = ref)).find?
            (fun r => r.pos = mutPos (muts.getD j "")) = some r ∧
          row.getD j 0 = 0 ∧ r.coverage ≤ mc) →
      (annotate_row ct ref mc muts row)[j]? = some (some (row.getD j 0))) := by
  have hjm : j < muts.length := by rw [List.length_zip] at hj; omega
  have hjr : j < row.length := by rw [List.length_zip] at hj; omega
  have hzip : (muts.zip row)[j]? = some (muts.getD j "", row.getD j 0) := by
    rw [List.getElem?_eq_getElem hj, List.getElem_zip]
    rw [List.getD_eq_getElem muts "" hjm, List.getD_eq_getElem row 0 hjr]
  have hget : (annotate_row ct ref mc muts row)[j]? =
      some (if maskCell ct ref mc (row.getD j 0) (mutPos (muts.getD j "")) then Option.none
        else some (row.getD j 0)) := by
    unfold annotate_row
    rw [List.getElem?_map, hzip]
    rfl
  rw [hget]
  rcases hfind : (ct.filter (fun r => r.chr = ref)).find?
      (fun r => r.pos = mutPos (muts.getD j "")) with _ | r
  · rw [maskCell_eq, hfind]
    constructor
    · simp
    · intro h
      exact absurd (Or.inl rfl) h
  · rw [maskCell_eq, hfind]
    by_cases h0 : row.getD j 0 = 0 <;> by_cases hcv : r.coverage ≤ mc <;>
      simp [h0, hcv]

/-- Witness for `C1_mask_iff` at a concrete cell: frequency `0`, covered
with depth `10 ≤ 20`, is masked. -/
theorem C1_witness :
    (annotate_row [⟨"r", 5, 10⟩] "r" 20 ["5_A_T_SNV"] [0])[0]? = some Option.none := by
  have h := (C1_mask_iff [⟨"r", 5, 10⟩] "r" 20 ["5_A_T_SNV"] [0] 0 (by decide)).1
  exact h.2 (Or.inr ⟨⟨"r", 5, 10⟩, by decide, by decide, by decide⟩)

/-! ## Claim C2 — header-less VCF files -/

/-- Claim C2: `read_vcf` does return an empty dictionary for a file without
a `#CHROM` header line, but the caller `extract_vcf_data` does **not**
continue with an empty variant list: its loop bound `len(vcf_dict["#CHROM"])`
raises an uncaught `KeyError` on that empty dictionary, so the pipeline
dies even though a second sample contributes variants.  This contradicts
the spec's recoverability tier (and the warning-not-abort intent visible in
`read_vcf` itself), so it is recorded as a code bug; the theorem evaluates
the code at the failing input. -/
theorem C2_headerless_keyerror :
    read_vcf ["r\t5\t.\tA\tT\t.\tPASS\tAF=1"] "r" = ([] : VDict) ∧
    extract_vcf_data [["r\t5\t.\tA\tT\t.\tPASS\tAF=1"],
        ["#CHROM\tPOS\tID\tREF\tALT\tQUAL\tFILTER\tINFO",
          "r\t10\t.\tA\tT\t.\tPASS\tAF=1"]] "r" 0 false
      = .error "KeyError: #CHROM" := by
  constructor
  · decide
  · decide

/-! ## Claim C4 — numeric ordering of the mutation axis -/

/-- Claim C4: whenever `extract_vcf_data` returns, the unique-mutation axis
is sorted ascending by the numeric position encoded as the first
underscore-delimited token (`numLe`), for any record order in the inputs;
and on a concrete input the produced axis places `"9_G_C_SNV"` *before*
`"10_A_T_SNV"` although `"10_A_T_SNV"` precedes it lexicographically
(character-wise), so the ordering is genuinely numeric, never
lexicographic. -/
theorem C4_axis_sorted :
    (∀ (files : List (List String)) (reference : String) (threshold : Rat)
        (scores : Bool) (out : List (List (String × Rat)) × List String),
        extract_vcf_data files reference threshold scores = .ok out →
          out.2.Sorted numLe) ∧
    (extract_vcf_data [["#CHROM\tPOS\tID\tREF\tALT\tQUAL\tFILTER\tINFO",
        "r\t10\t.\tA\tT\t.\tPASS\tAF=0.9", "r\t9\t.\tG\tC\t.\tPASS\tAF=0.8"]] "r" 0 false =
      .ok ([[("10_A_T_SNV", mkRat 9 10), ("9_G_C_SNV", mkRat 4 5)]],
        ["9_G_C_SNV", "10_A_T_SNV"]) ∧
      "10_A_T_SNV".data < "9_G_C_SNV".data) := by
  constructor
  · intro files reference threshold scores out h
    unfold extract_vcf_data at h
    split at h
    · exact absurd h (by simp)
    · split at h
      · exact absurd h (by simp)
      · split at h
        · exact absurd h (by simp)
        · rw [Except.ok.injEq] at h
          have h2 := congrArg Prod.snd h
          simp only at h2
          rw [← h2]
          exact List.sorted_insertionSort numLe _
  · constructor
    · decide
    · decide

/-- Witness for the universally quantified part of `C4_axis_sorted`. -/
theorem C4_witness :
    List.Sorted numLe ["9_G_C_SNV", "10_A_T_SNV"] :=
  C4_axis_sorted.1 [["#CHROM\tPOS\tID\tREF\tALT\tQUAL\tFILTER\tINFO",
      "r\t10\t.\tA\tT\t.\tPASS\tAF=0.9", "r\t9\t.\tG\tC\t.\tPASS\tAF=0.8"]] "r" 0 false
    ([[("10_A_T_SNV", mkRat 9 10), ("9_G_C_SNV", mkRat 4 5)]],
      ["9_G_C_SNV", "10_A_T_SNV"]) (by decide)

/-! ## Claim C5 — greedy track assignment -/

/-- The track index chosen by the scan never exceeds the number of
existing tracks. -/
theorem firstFree_le_length (stops : List Int) (strt : Int) :
    firstFree stops strt ≤ stops.length := by
  induction stops with
  | nil => simp [firstFree]
  | cons s rest ih =>
    simp only [firstFree, List.length_cons]
    split
    · omega
    · omega

/-- Every track before the chosen one is occupied past the gene's start. -/
theorem firstFree_lt_before (stops : List Int) (strt : Int) (i : Nat)
    (hi : i < firstFree stops strt) : strt < stops.getD i 0 := by
  induction stops generalizing i with
  | nil => simp [firstFree] at hi
  | cons s rest ih =>
    simp only [firstFree] at hi
    by_cases hs : strt < s
    · rw [if_pos hs] at hi
      cases i with
      | zero => simpa using hs
      | succ n =>
        simp only [List.getD_cons_succ]
        exact ih n (by omega)
    · rw [if_neg hs] at hi
      omega

/-- When the chosen track already exists, its recorded last stop is at or
before the gene's start. -/
theorem firstFree_stop_le (stops : List Int) (strt : Int)
    (h : firstFree stops strt < stops.length) :
    stops.getD (firstFree stops strt) 0 ≤ strt := by
  induction stops with
  | nil => simp at h
  | cons s rest ih =>
    simp only [firstFree] at h ⊢
    by_cases hs : strt < s
    · rw [if_pos hs] at h ⊢
      simp only [List.getD_cons_succ]
      exact ih (by simpa using h)
    · rw [if_neg hs]
      simpa using le_of_not_lt hs

/-- The genes processed by the loop come out of the sort in weakly
ascending start order. -/
theorem insertionSort_start_sorted (gs : List Gene) :
    List.Sorted (fun a b : Gene => a.start ≤ b.start) (List.insertionSort geneLe gs) := by
  have h := List.sorted_insertionSort geneLe gs
  refine h.imp ?_
  intro a b hab
  rcases hab with h1 | ⟨h1, _⟩
  · exact le_of_lt h1
  · exact le_of_eq h1

/-- Claim C5: `create_track_dict` processes genes in ascending start order
(after the tuple sort) and assigns each gene the first track whose last
occupied stop is `≤` the gene's start, opening a new track (index = old
track count) when every existing track overlaps; on the spec's example
`[10,50], [20,40], [60,80]` the first two genes land on different tracks
(`0` and `1`), the third shares track `0` with the first, and the total
track count is `2`. -/
theorem C5_track_layout :
    (∀ (stops : List Int) (strt : Int),
      firstFree stops strt ≤ stops.length ∧
      (∀ i, i < firstFree stops strt → strt < stops.getD i 0) ∧
      (firstFree stops strt < stops.length →
        stops.getD (firstFree stops strt) 0 ≤ strt)) ∧
    (∀ gs : List Gene,
      List.Sorted (fun a b : Gene => a.start ≤ b.start) (List.insertionSort geneLe gs)) ∧
    (create_track_dict ["15_A_T_SNV", "25_A_T_SNV", "65_A_T_SNV"]
        [("gene", [("g1", ⟨[], 10, 50, "+"⟩), ("g2", ⟨[], 20, 40, "+"⟩),
          ("g3", ⟨[], 60, 80, "+"⟩)])] ["gene"] =
      ([(⟨"g1", 10, 50, "+"⟩, 0), (⟨"g2", 20, 40, "+"⟩, 1), (⟨"g3", 60, 80, "+"⟩, 0)], 2)) := by
  refine ⟨?_, insertionSort_start_sorted, by decide⟩
  intro stops strt
  exact ⟨firstFree_le_length stops strt,
    fun i hi => firstFree_lt_before stops strt i hi,
    firstFree_stop_le stops strt⟩

/-- Witness for `C5_track_layout`'s quantified parts at concrete inputs:
with `track_stops = [50, 40]` and a gene starting at `45`, the scan skips
the overlapping track `0` (last stop `50 > 45`) and picks track `1`
(last stop `40 ≤ 45`). -/
theorem C5_witness :
    (45 : Int) < [(50 : Int), 40].getD 0 0 ∧ [(50 : Int), 40].getD (firstFree [50, 40] 45) 0 ≤ 45 := by
  refine ⟨(C5_track_layout.1 [50, 40] 45).2.1 0 ?_, (C5_track_layout.1 [50, 40] 45).2.2 ?_⟩
  · decide
  · decide

/-! ## Claim C6 — per-column contribution of the first six columns -/

/-- A split with exactly one part is the whole list. -/
theorem splitListOn_length_one (c : Char) (l : List Char)
    (h : (splitListOn c l).length = 1) : splitListOn c l = [l] := by
  induction l with
  | nil => rfl
  | cons x xs ih =>
    simp only [splitListOn] at h ⊢
    by_cases hx : x = c
    · rw [if_pos hx] at h
      have := splitListOn_ne_nil c xs
      simp only [List.length_cons] at h
      cases hxs : splitListOn c xs with
      | nil => exact absurd hxs this
      | cons a as => rw [hxs] at h; simp at h
    · rw [if_neg hx] at h ⊢
      cases hxs : splitListOn c xs with
      | nil => exact absurd hxs (splitListOn_ne_nil c xs)
      | cons a as =>
        rw [hxs] at h
        simp only [List.length_cons] at h
        have has : as = [] := by
          cases as with
          | nil => rfl
          | cons b bs => simp at h
        subst has
        have : splitListOn c xs = [xs] := ih (by rw [hxs]; rfl)
        rw [hxs] at this
        injection this with h1 _
        simp [h1]

/-- A comma-free column value splits into itself alone. -/
theorem pySplit_length_one (c : Char) (s : String)
    (h : (pySplit c s).length = 1) : pySplit c s = [s] := by
  unfold pySplit at h ⊢
  rw [List.length_map] at h
  rw [splitListOn_length_one c s.data h]
  rfl

/-- Claim C6, as stated, is false on the code: when a column has *more than
one but fewer than `k`* comma-separated values, the code does not broadcast
a single value to all `k` slots — it keeps the in-range values and pads the
overflow slots with the **first** value.  For column value `"a,b"` and
`k = 3` the contribution is `[a, b, a]`, which is no constant list. -/
theorem C6_counterexample :
    (pySplit ',' "a,b").length < 3 ∧
      sixColEntries "a,b" 3 = [VVal.str "a", VVal.str "b", VVal.str "a"] ∧
      ∀ v : VVal, sixColEntries "a,b" 3 ≠ List.replicate 3 v := by
  refine ⟨by decide, by decide, ?_⟩
  intro v h
  rw [show sixColEntries "a,b" 3 = [VVal.str "a", VVal.str "b", VVal.str "a"] from by decide] at h
  rw [show List.replicate 3 v = [v, v, v] from rfl] at h
  injection h with h1 h2
  injection h2 with h2 _
  rw [← h1] at h2
  exact absurd h2 (by decide)

/-- Claim C6 (amended): for every line and every one of the first six
canonical columns, the column contributes exactly `k = length_variants`
entries; slot `i` holds the column's own `i`-th comma-separated value while
it exists, and every overflow slot is padded with the column's *first*
value — in particular a single-valued (comma-free) column is broadcast to
all `k` slots. -/
theorem C6_six_columns (s : String) (k : Nat) :
    (sixColEntries s k).length = k ∧
    ((pySplit ',' s).length = 1 →
      sixColEntries s k = List.replicate k (convert_string s)) ∧
    (∀ i, i < k →
      (sixColEntries s k).getD i VVal.null =
        if i < (pySplit ',' s).length then
          convert_string ((pySplit ',' s).getD i "")
        else convert_string ((pySplit ',' s).getD 0 "")) := by
  refine ⟨by simp [sixColEntries], ?_, ?_⟩
  · intro h
    rw [show sixColEntries s k =
        (List.range k).map (fun i =>
          convert_string ((pySplit ',' s).getD i ((pySplit ',' s).getD 0 ""))) from rfl]
    rw [pySplit_length_one ',' s h]
    refine List.eq_replicate_iff.2 ⟨by simp, ?_⟩
    intro b hb
    rcases List.mem_map.1 hb with ⟨i, _, hi⟩
    cases i with
    | zero => simpa using hi.symm
    | succ n =>
      rw [show ([s].getD (n + 1) ([s].getD 0 "")) = s from by simp [List.getD]] at hi
      exact hi.symm
  · intro i hi
    rw [show sixColEntries s k =
        (List.range k).map (fun j =>
          convert_string ((pySplit ',' s).getD j ((pySplit ',' s).getD 0 ""))) from rfl]
    rw [List.getD_eq_getElem _ _ (by simpa using hi), List.getElem_map, List.getElem_range]
    by_cases hlen : i < (pySplit ',' s).length
    · rw [if_pos hlen, List.getD_eq_getElem _ _ hlen, List.getD_eq_getElem _ _ hlen]
    · rw [if_neg hlen, List.getD_eq_default _ _ (by omega)]

/-- Witness for `C6_six_columns`: a comma-free value is broadcast to both
slots of a two-allele line. -/
theorem C6_witness :
    sixColEntries "x" 2 = List.replicate 2 (convert_string "x") :=
  (C6_six_columns "x" 2).2.1 (by decide)

/-! ## Claim C8 — the filters mutate the caller's axis list -/

/-- Selecting entries at strictly increasing in-range indices yields a
sublist of the source list. -/
theorem getD_map_sublist {α : Type} (d : α) (m : List α) (is : List Nat)
    (hp : is.Pairwise (· < ·)) (hb : ∀ i ∈ is, i < m.length) :
    (is.map (fun i => m.getD i d)).Sublist m := by
  have hmap : is.map (fun i => m.getD i d) =
      (is.pmap (fun i (h : i < m.length) => (⟨i, h⟩ : Fin m.length)) hb).map
        (fun j => m[j]) := by
    refine List.ext_getElem ?_ ?_
    · simp
    · intro j h1 h2
      simp only [List.getElem_map, List.getElem_pmap]
      exact List.getD_eq_getElem m d _
  rw [hmap]
  refine List.map_getElem_sublist ?_
  refine hp.pmap hb ?_
  intro a b ha hb2 hab
  simpa using hab

/-- The kept column indices are strictly increasing. -/
theorem keptIndices_pairwise (A : List (List Rat)) (p : List Rat → Bool) :
    (keptIndices A p).Pairwise (· < ·) :=
  List.Pairwise.sublist (List.filter_sublist _) (List.pairwise_lt_range _)

/-- Kept indices are below the column count. -/
theorem keptIndices_lt (A : List (List Rat)) (p : List Rat → Bool) (i : Nat)
    (hi : i ∈ keptIndices A p) : i < (A.headD []).length := by
  unfold keptIndices at hi
  exact List.mem_range.1 (List.mem_of_mem_filter hi)

/-- Claim C8, as stated, is false on the code: both filters execute
`del unique_mutations[idx]` on the caller's list, so the axis list passed
in is *not* unchanged after the call.  Here a single all-zero column makes
`delete_common_mutations` empty the caller's axis.  (The second component
of the model is the caller's list's state after the call.) -/
theorem C8_counterexample :
    (delete_common_mutations [[0]] ["1_A_T_SNV"]).2 ≠ ["1_A_T_SNV"] := by
  decide

/-- Claim C8 (amended): each filter returns a freshly built matrix, but the
mutation-axis list passed in is mutated in place; after the call it is the
subsequence of the original axis at the kept column indices — in general a
proper sublist, not the original list (`C8_counterexample`).  The length
hypothesis is the rectangularity Python's numpy layout guarantees. -/
theorem C8_filters_mutate_axis (A : List (List Rat)) (muts : List String)
    (min_mut : Nat) (hlen : (A.headD []).length ≤ muts.length) :
    (delete_common_mutations A muts).2.Sublist muts ∧
    (delete_n_mutations A muts min_mut).2.Sublist muts := by
  constructor <;>
    exact getD_map_sublist "" muts _ (keptIndices_pairwise A _)
      (fun i hi => lt_of_lt_of_le (keptIndices_lt A _ i hi) hlen)

/-- Witness for `C8_filters_mutate_axis` at a concrete matrix. -/
theorem C8_witness :
    (delete_common_mutations [[0]] ["1_A_T_SNV"]).2.Sublist ["1_A_T_SNV"] ∧
    (delete_n_mutations [[0]] ["1_A_T_SNV"] 0).2.Sublist ["1_A_T_SNV"] :=
  C8_filters_mutate_axis [[0]] ["1_A_T_SNV"] 0 (by decide)

/-! ## Claim C10 — deduplication vs. the name-keyed layout -/

/-- The layout loop returns exactly the genes it was given, in order. -/
theorem assignTracks_fst (stops : List Int) (gs : List Gene) :
    (assignTracks stops gs).1.map Prod.fst = gs := by
  induction gs generalizing stops with
  | nil => rfl
  | cons g gs ih =>
    simp only [assignTracks, List.map_cons]
    rw [ih]

/-- Replacing a same-named gene keeps the name column unchanged. -/
theorem geneDict_step_names (acc : List Gene) (g : Gene) :
    (acc.map (fun h => if h.name = g.name then g else h)).map Gene.name =
      acc.map Gene.name := by
  rw [List.map_map]
  refine List.map_congr_left ?_
  intro h _
  by_cases hn : h.name = g.name
  · simp [hn]
  · simp [hn]

/-- The fold of `geneDictOf` keeps the display names pairwise distinct. -/
theorem geneDict_fold_names_nodup (cands : List Gene) :
    ∀ acc : List Gene, (acc.map Gene.name).Nodup →
      ((cands.foldl (fun acc g =>
        if acc.any (fun h => h.name = g.name) then
          acc.map (fun h => if h.name = g.name then g else h)
        else acc ++ [g]) acc).map Gene.name).Nodup := by
  induction cands with
  | nil => intro acc h; simpa using h
  | cons g gs ih =>
    intro acc hacc
    simp only [List.foldl_cons]
    by_cases hmem : acc.any (fun h => h.name = g.name)
    · rw [if_pos hmem]
      refine ih _ ?_
      rw [geneDict_step_names]
      exact hacc
    · rw [if_neg hmem]
      refine ih _ ?_
      rw [List.map_append]
      rw [List.nodup_append]
      refine ⟨hacc, by simp, ?_⟩
      intro a ha hb
      simp only [List.map_cons, List.map_nil, List.mem_singleton] at hb
      subst hb
      rcases List.mem_map.1 ha with ⟨h, hh, hhn⟩
      exact hmem (List.any_eq_true.2 ⟨h, hh, by simp [hhn]⟩)

/-- `geneDictOf` keys the layout by display name: its names are distinct. -/
theorem geneDictOf_names_nodup (cands : List Gene) :
    ((geneDictOf cands).map Gene.name).Nodup :=
  geneDict_fold_names_nodup cands [] (by simp)

/-- Claim C10, as stated, is false on the code: the intermediate set
deduplicates by the full `(name, start, stop, strand)` tuple, but the
layout dictionary is then keyed by the display name alone, so two features
sharing a name while differing in coordinates collapse into a single
entry.  Two `"G"`-named genes at `[10,20)` and `[30,40)`, each hit by a
mutation, survive deduplication as two tuples yet yield one laid-out
entry. -/
theorem C10_counterexample :
    (candidatesOf ["15_A_T_SNV", "35_A_T_SNV"]
        [("gene", [("g1", ⟨[("Name", "G")], 10, 20, "+"⟩),
          ("g2", ⟨[("Name", "G")], 30, 40, "+"⟩)])] ["gene"]).dedup.length = 2 ∧
    (create_track_dict ["15_A_T_SNV", "35_A_T_SNV"]
        [("gene", [("g1", ⟨[("Name", "G")], 10, 20, "+"⟩),
          ("g2", ⟨[("Name", "G")], 30, 40, "+"⟩)])] ["gene"]).1.length = 1 := by
  constructor
  · decide
  · decide

/-- Claim C10 (amended): the candidate set is deduplicated by the full
`(name, start, stop, strand)` tuple (`dedup`, hence `Nodup`), but the
returned layout carries at most one entry per display *name*: its name
column is pairwise distinct, so same-named features with different
coordinates do not appear as separate entries (`C10_counterexample`). -/
theorem C10_name_keyed :
    (∀ (um : List String) (gff3 : Gff3Dict) (types : List String),
      (candidatesOf um gff3 types).dedup.Nodup) ∧
    (∀ (um : List String) (gff3 : Gff3Dict) (types : List String),
      ((create_track_dict um gff3 types).1.map (fun p => p.1.name)).Nodup) := by
  refine ⟨fun _ _ _ => List.nodup_dedup _, ?_⟩
  intro um gff3 types
  unfold create_track_dict
  split
  · simp
  · have hfst := assignTracks_fst [0]
      (List.insertionSort geneLe (geneDictOf (candidatesOf um gff3 types).dedup))
    have hname : ((assignTracks [0]
        (List.insertionSort geneLe (geneDictOf (candidatesOf um gff3 types).dedup))).1.map
          (fun p => p.1.name)) =
        ((List.insertionSort geneLe (geneDictOf (candidatesOf um gff3 types).dedup)).map
          Gene.name) := by
      rw [show (fun p : Gene × Nat => p.1.name) = Gene.name ∘ Prod.fst from rfl]
      rw [← List.map_map, hfst]
    simp only []
    rw [hname]
    have hperm := (List.perm_insertionSort geneLe
      (geneDictOf (candidatesOf um gff3 types).dedup)).map Gene.name
    exact (hperm.nodup_iff).2 (geneDictOf_names_nodup _)

/-! ## Claim C7 — idempotence of the zero/common filter -/

/-- `getD` through a `map`, inside bounds. -/
theorem getD_map_of_lt {α β : Type} (f : α → β) (l : List α) (j : Nat)
    (d : β) (d' : α) (h : j < l.length) :
    (l.map f).getD j d = f (l.getD j d') := by
  rw [List.getD_eq_getElem _ _ (by simpa using h), List.getElem_map,
    List.getD_eq_getElem _ _ h]

/-- Reading every position of a list back, in order, is the identity. -/
theorem map_getD_range {α : Type} (l : List α) (d : α) :
    (List.range l.length).map (fun i => l.getD i d) = l := by
  refine List.ext_getElem (by simp) ?_
  intro i h1 h2
  simp only [List.getElem_map, List.getElem_range]
  exact List.getD_eq_getElem l d h2

/-- A column of the filtered matrix is the corresponding kept column of the
original matrix. -/
theorem colVals_filterCols (A : List (List Rat)) (keep : List Nat) (j : Nat)
    (hj : j < keep.length) :
    colVals (filterCols A keep) j = colVals A (keep.getD j 0) := by
  unfold colVals filterCols
  rw [List.map_map]
  refine List.map_congr_left ?_
  intro row _
  exact getD_map_of_lt (fun i => row.getD i 0) keep j 0 0 hj

/-- Membership in the kept index list. -/
theorem mem_keptIndices (A : List (List Rat)) (p : List Rat → Bool) (i : Nat) :
    i ∈ keptIndices A p ↔ i < (A.headD []).length ∧ p (colVals A i) = false := by
  unfold keptIndices
  rw [List.mem_filter, List.mem_range]
  simp

/-- Claim C7: the zero/common filter is idempotent — every column surviving
`delete_common_mutations` fails the deletion test (it is neither all-zero
nor all-positive with spread `< 0.5`), so re-applying the filter to the
`(matrix, axis)` pair it produced deletes zero further columns and returns
that pair unchanged.  The hypotheses state the numpy rectangularity of the
input (`A` nonempty, rows of equal width, axis aligned with the columns),
under which the model agrees with the Python code. -/
theorem C7_common_filter_idempotent (A : List (List Rat)) (muts : List String)
    (hA : A ≠ []) (hrect : ∀ r ∈ A, r.length = (A.headD []).length)
    (hm : muts.length = (A.headD []).length) :
    (∀ j, j < ((delete_common_mutations A muts).1.headD []).length →
      commonDel (colVals (delete_common_mutations A muts).1 j) = false) ∧
    delete_common_mutations (delete_common_mutations A muts).1
        (delete_common_mutations A muts).2 = delete_common_mutations A muts := by
  rcases A with _ | ⟨r, rs⟩
  · exact absurd rfl hA
  have hhead : ((delete_common_mutations (r :: rs) muts).1.headD []).length =
      (keptIndices (r :: rs) commonDel).length := by
    simp [delete_common_mutations, filterCols]
  have hsurv : ∀ j, j < (keptIndices (r :: rs) commonDel).length →
      commonDel (colVals (delete_common_mutations (r :: rs) muts).1 j) = false := by
    intro j hj
    have hcv : colVals (delete_common_mutations (r :: rs) muts).1 j =
        colVals (r :: rs) ((keptIndices (r :: rs) commonDel).getD j 0) :=
      colVals_filterCols (r :: rs) _ j hj
    rw [hcv]
    have hmem : (keptIndices (r :: rs) commonDel).getD j 0 ∈
        keptIndices (r :: rs) commonDel := by
      rw [List.getD_eq_getElem _ _ hj]
      exact List.getElem_mem _
    exact ((mem_keptIndices _ _ _).1 hmem).2
  refine ⟨fun j hj => hsurv j (by rwa [hhead] at hj), ?_⟩
  have hkeep2 : keptIndices (delete_common_mutations (r :: rs) muts).1 commonDel =
      List.range (keptIndices (r :: rs) commonDel).length := by
    unfold keptIndices
    rw [show (((delete_common_mutations (r :: rs) muts).1.headD []).length) =
        (keptIndices (r :: rs) commonDel).length from hhead]
    refine List.filter_eq_self.2 ?_
    intro i hi
    rw [hsurv i (List.mem_range.1 hi)]
    rfl
  have hrows : filterCols (delete_common_mutations (r :: rs) muts).1
      (List.range (keptIndices (r :: rs) commonDel).length) =
      (delete_common_mutations (r :: rs) muts).1 := by
    unfold filterCols
    conv_rhs => rw [← List.map_id ((delete_common_mutations (r :: rs) muts).1)]
    refine List.map_congr_left ?_
    intro row hrow
    have hlen : row.length = (keptIndices (r :: rs) commonDel).length := by
      simp only [delete_common_mutations, filterCols] at hrow
      rcases List.mem_map.1 hrow with ⟨row0, _, rfl⟩
      simp
    rw [show (keptIndices (r :: rs) commonDel).length = row.length from hlen.symm]
    exact map_getD_range row 0
  have hax : filterAxis (delete_common_mutations (r :: rs) muts).2
      (List.range (keptIndices (r :: rs) commonDel).length) =
      (delete_common_mutations (r :: rs) muts).2 := by
    have hlen : (delete_common_mutations (r :: rs) muts).2.length =
        (keptIndices (r :: rs) commonDel).length := by
      simp [delete_common_mutations, filterAxis]
    unfold filterAxis
    rw [show (keptIndices (r :: rs) commonDel).length =
        (delete_common_mutations (r :: rs) muts).2.length from hlen.symm]
    exact map_getD_range _ ""
  have hstep : delete_common_mutations (delete_common_mutations (r :: rs) muts).1
      (delete_common_mutations (r :: rs) muts).2 =
      (filterCols (delete_common_mutations (r :: rs) muts).1
          (keptIndices (delete_common_mutations (r :: rs) muts).1 commonDel),
        filterAxis (delete_common_mutations (r :: rs) muts).2
          (keptIndices (delete_common_mutations (r :: rs) muts).1 commonDel)) := rfl
  rw [hstep, hkeep2, hrows, hax]

/-- Witness for `C7_common_filter_idempotent`: a two-sample matrix with one
discriminating and one all-zero column; after one filtering pass a second
pass changes nothing. -/
theorem C7_witness :
    delete_common_mutations (delete_common_mutations [[1, 0], [0, 0]] ["a", "b"]).1
        (delete_common_mutations [[1, 0], [0, 0]] ["a", "b"]).2 =
      delete_common_mutations [[1, 0], [0, 0]] ["a", "b"] :=
  (C7_common_filter_idempotent [[1, 0], [0, 0]] ["a", "b"] (by decide)
    (by decide) (by decide)).2

/-! ## Claim C9 — `parse_gff3` abort condition -/

/-- A line `parse_gff3` actually indexes: it starts with the reference
*and* its attribute column starts with `ID=`. -/
def gffLineProcessed (reference line : String) : Bool :=
  pyStartsWith line reference &&
    pyStartsWith ((pySplit '\t' line).getD 8 "") "ID="

/-- Well-formedness of one GFF3 line, relative to a reference: a selected
line has at least nine tab fields, and an indexed line has a feature type
other than the literal string `"ID"`, integer start/stop columns, and
attributes that split into exactly one key and one value — i.e. the inputs
on which the Python code neither raises nor trips over its
`"ID" in gff3_dict` top-level-key quirk. -/
def GffLineWF (reference line : String) : Prop :=
  pyStartsWith line reference = true →
    (9 ≤ (pySplit '\t' line).length ∧
      (gffLineProcessed reference line = true →
        (pySplit '\t' line).getD 2 "" ≠ "ID" ∧
        (pyInt ((pySplit '\t' line).getD 3 "")).isSome = true ∧
        (pyInt ((pySplit '\t' line).getD 4 "")).isSome = true ∧
        ∀ a ∈ pySplit ';' ((pySplit '\t' line).getD 8 ""),
          (pySplit '=' a).length = 2))

instance (reference line : String) : Decidable (GffLineWF reference line) := by
  unfold GffLineWF gffLineProcessed
  infer_instance

/-- The first split segment is the longest separator-free initial run. -/
theorem splitListOn_headD (c : Char) (l : List Char) :
    (splitListOn c l).headD [] = l.takeWhile (fun x => !decide (x = c)) := by
  induction l with
  | nil => rfl
  | cons x xs ih =>
    simp only [splitListOn, List.takeWhile]
    by_cases hx : x = c
    · rw [if_pos hx]
      simp [hx]
    · rw [if_neg hx]
      simp only [List.headD_cons]
      rw [show (!decide (x = c)) = true from by simp [hx]]
      rw [← ih]

/-- String version of `splitListOn_headD`. -/
theorem pySplit_headD (c : Char) (s : String) :
    (pySplit c s).headD "" = ⟨s.data.takeWhile (fun x => !decide (x = c))⟩ := by
  unfold pySplit
  rcases hs : splitListOn c s.data with _ | ⟨a, as⟩
  · exact absurd hs (splitListOn_ne_nil c s.data)
  · have : a = s.data.takeWhile (fun x => !decide (x = c)) := by
      have := splitListOn_headD c s.data
      rw [hs] at this
      simpa using this
    simp [this]

/-- A string starting with `ID=` yields `"ID"` as its first `=`-key. -/
theorem idKey_of_startsWith (e : String) (h : pyStartsWith e "ID=" = true) :
    (pySplit '=' e).headD "" = "ID" := by
  obtain ⟨t, ht⟩ : ∃ t, e.data = 'I' :: 'D' :: '=' :: t := by
    unfold pyStartsWith at h
    rcases he : e.data with _ | ⟨a, _ | ⟨b, _ | ⟨c, t⟩⟩⟩ <;>
      rw [show "ID=".data = ['I', 'D', '='] from rfl] at h <;>
      rw [he] at h <;> simp [startsWithL] at h
    obtain ⟨rfl, rfl, rfl⟩ := h
    exact ⟨t, rfl⟩
  rw [pySplit_headD, ht]
  rfl

/-- The attribute column's first `;`-segment inherits its `ID=` start. -/
theorem first_attr_starts (s : String) (h : pyStartsWith s "ID=" = true) :
    pyStartsWith ((pySplit ';' s).headD "") "ID=" = true := by
  obtain ⟨t, ht⟩ : ∃ t, s.data = 'I' :: 'D' :: '=' :: t := by
    unfold pyStartsWith at h
    rcases he : s.data with _ | ⟨a, _ | ⟨b, _ | ⟨c, t⟩⟩⟩ <;>
      rw [show "ID=".data = ['I', 'D', '='] from rfl] at h <;>
      rw [he] at h <;> simp [startsWithL] at h
    obtain ⟨rfl, rfl, rfl⟩ := h
    exact ⟨t, rfl⟩
  rw [pySplit_headD, ht]
  unfold pyStartsWith
  rw [show "ID=".data = ['I', 'D', '='] from rfl]
  simp [List.takeWhile, startsWithL]

/-- Top-level key test of the annotation index, as a membership. -/
theorem gffAny_iff (d : Gff3Dict) (k : String) :
    d.any (fun p => p.1 = k) = true ↔ k ∈ gffKeys d := by
  rw [List.any_eq_true]
  unfold gffKeys
  constructor
  · rintro ⟨p, hp, hpk⟩
    exact List.mem_map.2 ⟨p, hp, by simpa using hpk⟩
  · rintro h
    rcases List.mem_map.1 h with ⟨p, hp, hpk⟩
    exact ⟨p, hp, by simpa using hpk⟩

theorem gffKeys_gffSetId (d : Gff3Dict) (typ aid : String) :
    gffKeys (gffSetId d typ aid) = gffKeys d := by
  unfold gffKeys gffSetId
  rw [List.map_map]
  refine List.map_congr_left ?_
  intro p _
  by_cases h : p.1 = typ <;> simp [h]

theorem gffKeys_gffModify (d : Gff3Dict) (typ aid : String) (f : GffEntry → GffEntry) :
    gffKeys (gffModify d typ aid f) = gffKeys d := by
  unfold gffKeys gffModify
  rw [List.map_map]
  refine List.map_congr_left ?_
  intro p _
  by_cases h : p.1 = typ <;> simp [h]

theorem gffKeys_gffEnsureType (d : Gff3Dict) (typ : String) :
    gffKeys (gffEnsureType d typ) = gffKeys d ∨
      gffKeys (gffEnsureType d typ) = gffKeys d ++ [typ] := by
  unfold gffEnsureType
  split
  · exact Or.inl rfl
  · right
    simp [gffKeys]

theorem mem_gffKeys_gffEnsureType (d : Gff3Dict) (typ : String) :
    typ ∈ gffKeys (gffEnsureType d typ) := by
  unfold gffEnsureType
  split
  · next h => exact (gffAny_iff d typ).1 h
  · simp [gffKeys]

/-- Once the attribute id is assigned, the attribute loop never fails and
never changes the set of top-level feature types. -/
theorem gffAttrFold_ok (typ : String) (attrs : List String) :
    ∀ (d : Gff3Dict) (a : String),
      (∀ x ∈ attrs, (pySplit '=' x).length = 2) →
      ∃ d2 a2, gffAttrFold typ (d, some a) attrs = .ok (d2, some a2) ∧
        gffKeys d2 = gffKeys d := by
  induction attrs with
  | nil => exact fun d a _ => ⟨d, a, rfl, rfl⟩
  | cons attr rest ih =>
    intro d a hwf
    have h2 := hwf attr (List.mem_cons_self attr rest)
    simp only [gffAttrFold]
    rw [if_neg (not_not_intro h2)]
    by_cases hid : (pySplit '=' attr).headD "" = "ID"
    · rw [if_neg (show ¬ (pySplit '=' attr).headD "" ≠ "ID" from not_not_intro hid)]
      by_cases hany : (d.any (fun p => p.1 = "ID")) = true
      · rw [if_neg (show ¬ ((pySplit '=' attr).headD "" = "ID" ∧
            ¬ (d.any (fun p => p.1 = "ID")) = true) from fun h => h.2 hany)]
        rw [if_neg (show ¬ ((pySplit '=' attr).headD "" = "ID" ∧
            ¬ (d.any (fun p => p.1 = "ID")) = true) from fun h => h.2 hany)]
        exact ih d a (fun x hx => hwf x (List.mem_cons_of_mem attr hx))
      · rw [if_pos (show ((pySplit '=' attr).headD "" = "ID" ∧
            ¬ (d.any (fun p => p.1 = "ID")) = true) from ⟨hid, hany⟩)]
        rw [if_pos (show ((pySplit '=' attr).headD "" = "ID" ∧
            ¬ (d.any (fun p => p.1 = "ID")) = true) from ⟨hid, hany⟩)]
        obtain ⟨d3, a3, heq, hkeys⟩ :=
          ih (gffSetId d typ ((pySplit '=' attr).getD 1 ""))
            ((pySplit '=' attr).getD 1 "")
            (fun x hx => hwf x (List.mem_cons_of_mem attr hx))
        exact ⟨d3, a3, heq, by rw [hkeys, gffKeys_gffSetId]⟩
    · rw [if_pos (show (pySplit '=' attr).headD "" ≠ "ID" from hid)]
      rw [if_neg (show ¬ ((pySplit '=' attr).headD "" = "ID" ∧
          ¬ (d.any (fun p => p.1 = "ID")) = true) from fun h => hid h.1)]
      rw [if_neg (show ¬ ((pySplit '=' attr).headD "" = "ID" ∧
          ¬ (d.any (fun p => p.1 = "ID")) = true) from fun h => hid h.1)]
      obtain ⟨d3, a3, heq, hkeys⟩ :=
        ih (gffModify d typ a (fun e => attrSet e ((pySplit '=' attr).headD "")
            ((pySplit '=' attr).getD 1 ""))) a
          (fun x hx => hwf x (List.mem_cons_of_mem attr hx))
      exact ⟨d3, a3, heq, by rw [hkeys, gffKeys_gffModify]⟩

/-- One step of `parse_gff3`'s loop on a well-formed line: it succeeds,
never puts `"ID"` among the feature types, and leaves the index empty
exactly when it was empty and the line is not indexed. -/
theorem gffStep_ok (reference line : String) (st : Gff3Dict × Option String)
    (hwf : GffLineWF reference line) (hid : "ID" ∉ gffKeys st.1) :
    ∃ st2 : Gff3Dict × Option String, gffStep reference st line = .ok st2 ∧
      "ID" ∉ gffKeys st2.1 ∧
      (st2.1 = [] ↔ (st.1 = [] ∧ gffLineProcessed reference line = false)) := by
  by_cases hsel : pyStartsWith line reference = true
  case neg =>
    have hb : pyStartsWith line reference = false := by
      revert hsel; cases pyStartsWith line reference <;> simp
    refine ⟨st, ?_, hid, ?_⟩
    · unfold gffStep
      rw [if_pos (show ¬ pyStartsWith line reference = true from hsel)]
    · unfold gffLineProcessed
      rw [hb]
      simp
  case pos =>
    obtain ⟨h9, hrest⟩ := hwf hsel
    unfold gffStep
    rw [if_neg (not_not_intro hsel)]
    rw [if_neg (show ¬ (pySplit '\t' line).length < 9 from by omega)]
    by_cases hok : pyStartsWith ((pySplit '\t' line).getD 8 "") "ID=" = true
    case neg =>
      have hb : pyStartsWith ((pySplit '\t' line).getD 8 "") "ID=" = false := by
        revert hok; cases pyStartsWith ((pySplit '\t' line).getD 8 "") "ID=" <;> simp
      rw [if_pos (show ¬ pyStartsWith ((pySplit '\t' line).getD 8 "") "ID=" = true from hok)]
      refine ⟨st, rfl, hid, ?_⟩
      unfold gffLineProcessed
      rw [hb]
      simp
    case pos =>
      have hproc : gffLineProcessed reference line = true := by
        unfold gffLineProcessed
        rw [hsel, hok]
        rfl
      obtain ⟨htyp, hint3, hint4, hattr2⟩ := hrest hproc
      rw [if_neg (not_not_intro hok)]
      rcases hattrs : pySplit ';' ((pySplit '\t' line).getD 8 "") with _ | ⟨a0, rest⟩
      · exact absurd hattrs (pySplit_ne_nil _ _)
      have ha0 : pyStartsWith a0 "ID=" = true := by
        have h := first_attr_starts _ hok
        rw [hattrs] at h
        simpa using h
      have hid0 : (pySplit '=' a0).headD "" = "ID" := idKey_of_startsWith a0 ha0
      have ha0len : (pySplit '=' a0).length = 2 := by
        refine hattr2 a0 ?_
        rw [hattrs]
        exact List.mem_cons_self _ _
      have hmemrest : ∀ x ∈ rest, (pySplit '=' x).length = 2 := by
        intro x hx
        refine hattr2 x ?_
        rw [hattrs]
        exact List.mem_cons_of_mem a0 hx
      have hmemE : "ID" ∉ gffKeys (gffEnsureType st.1 ((pySplit '\t' line).getD 2 "")) := by
        intro hm
        rcases gffKeys_gffEnsureType st.1 ((pySplit '\t' line).getD 2 "") with he | he
        · rw [he] at hm; exact hid hm
        · rw [he] at hm
          rcases List.mem_append.1 hm with h | h
          · exact hid h
          · have hh : "ID" = (pySplit '\t' line).getD 2 "" := by simpa using h
            exact htyp hh.symm
      have hanyE : ((gffEnsureType st.1 ((pySplit '\t' line).getD 2 "")).any
          (fun p => p.1 = "ID")) ≠ true :=
        fun hc => hmemE ((gffAny_iff _ _).1 hc)
      obtain ⟨d3, a3, heq3, hkeys3⟩ := gffAttrFold_ok ((pySplit '\t' line).getD 2 "") rest
        (gffSetId (gffEnsureType st.1 ((pySplit '\t' line).getD 2 ""))
          ((pySplit '\t' line).getD 2 "") ((pySplit '=' a0).getD 1 ""))
        ((pySplit '=' a0).getD 1 "")
        hmemrest
      have hfold : gffAttrFold ((pySplit '\t' line).getD 2 "")
          (gffEnsureType st.1 ((pySplit '\t' line).getD 2 ""), st.2) (a0 :: rest) =
          .ok (d3, some a3) := by
        simp only [gffAttrFold]
        rw [if_neg (not_not_intro ha0len)]
        rw [if_pos (show ((pySplit '=' a0).headD "" = "ID" ∧
            ¬ ((gffEnsureType st.1 ((pySplit '\t' line).getD 2 "")).any
              (fun p => p.1 = "ID")) = true) from ⟨hid0, hanyE⟩)]
        rw [if_pos (show ((pySplit '=' a0).headD "" = "ID" ∧
            ¬ ((gffEnsureType st.1 ((pySplit '\t' line).getD 2 "")).any
              (fun p => p.1 = "ID")) = true) from ⟨hid0, hanyE⟩)]
        rw [if_neg (show ¬ (pySplit '=' a0).headD "" ≠ "ID" from not_not_intro hid0)]
        exact heq3
      rw [hfold]
      obtain ⟨b3, hb3⟩ := Option.isSome_iff_exists.1 hint3
      obtain ⟨b4, hb4⟩ := Option.isSome_iff_exists.1 hint4
      rw [hb3, hb4]
      refine ⟨(gffModify d3 ((pySplit '\t' line).getD 2 "") a3
          (fun en => ⟨en.attrs, b3, b4, (pySplit '\t' line).getD 6 ""⟩), some a3),
        rfl, ?_, ?_⟩
      · simp only [gffKeys_gffModify]
        rw [hkeys3, gffKeys_gffSetId]
        exact hmemE
      · have htypmem : ((pySplit '\t' line).getD 2 "") ∈
            gffKeys (gffModify d3 ((pySplit '\t' line).getD 2 "") a3
              (fun en => ⟨en.attrs, b3, b4, (pySplit '\t' line).getD 6 ""⟩)) := by
          rw [gffKeys_gffModify, hkeys3, gffKeys_gffSetId]
          exact mem_gffKeys_gffEnsureType _ _
        constructor
        · intro hnil
          rw [show gffKeys (gffModify d3 ((pySplit '\t' line).getD 2 "") a3
              (fun en => ⟨en.attrs, b3, b4, (pySplit '\t' line).getD 6 ""⟩)) =
              ([] : Gff3Dict).map (fun p => p.1) from by rw [← hnil]; rfl] at htypmem
          simp at htypmem
        · intro ⟨_, hpf⟩
          rw [hproc] at hpf
          exact absurd hpf (by simp)

/-- The whole loop of `parse_gff3` on a well-formed file: it succeeds, and
the index is empty iff it started empty and no line is indexed. -/
theorem gffFold_ok (reference : String) (lines : List String) :
    ∀ st : Gff3Dict × Option String,
      (∀ l ∈ lines, GffLineWF reference l) → "ID" ∉ gffKeys st.1 →
      ∃ st2, gffFold reference st lines = .ok st2 ∧
        (st2.1 = [] ↔ (st.1 = [] ∧ ∀ l ∈ lines, gffLineProcessed reference l = false)) := by
  induction lines with
  | nil => exact fun st _ _ => ⟨st, rfl, by simp⟩
  | cons l ls ih =>
    intro st hwf hid
    obtain ⟨st2, hstep, hid2, hiff⟩ :=
      gffStep_ok reference l st (hwf l (List.mem_cons_self l ls)) hid
    obtain ⟨st3, hfold, hiff3⟩ :=
      ih st2 (fun x hx => hwf x (List.mem_cons_of_mem l hx)) hid2
    refine ⟨st3, ?_, ?_⟩
    · simp only [gffFold]
      rw [hstep]
      exact hfold
    · rw [hiff3, hiff, List.forall_mem_cons]
      tauto

/-- Claim C9 (amended): under line well-formedness, `parse_gff3` aborts
with the reference-not-found message iff **no** line both starts with the
reference id and has an attribute column starting with `ID=`; whenever at
least one such line exists it returns an annotation index.  The original
claim — abort iff no line matches the reference — is refuted by
`C9_counterexample`: a line can match the reference yet be skipped for
lacking a leading `ID=` attribute, and the parse still aborts. -/
theorem C9_parse_gff3 (fileLines : List String) (reference : String)
    (hwf : ∀ l ∈ fileLines, GffLineWF reference l) :
    ((∃ l ∈ fileLines, gffLineProcessed reference l = true) ↔
      ∃ dd, parse_gff3 fileLines reference = .ok dd) ∧
    (parse_gff3 fileLines reference =
        .error ("ERROR: " ++ reference ++ " not found in gff3 file.") ↔
      ∀ l ∈ fileLines, gffLineProcessed reference l = false) := by
  obtain ⟨st2, hfold, hiff⟩ :=
    gffFold_ok reference fileLines ([], Option.none) hwf (by simp [gffKeys])
  have hiff2 : st2.1 = [] ↔ ∀ l ∈ fileLines, gffLineProcessed reference l = false := by
    rw [hiff]
    simp
  have hp : parse_gff3 fileLines reference =
      if st2.1.isEmpty then .error ("ERROR: " ++ reference ++ " not found in gff3 file.")
      else .ok st2.1 := by
    unfold parse_gff3
    rw [hfold]
  rw [hp]
  by_cases hemp : st2.1 = []
  · rw [if_pos (by simpa using hemp)]
    constructor
    · refine iff_of_false ?_ ?_
      · rintro ⟨l, hl, hp⟩
        have := hiff2.1 hemp l hl
        rw [hp] at this
        exact absurd this (by simp)
      · rintro ⟨dd, hdd⟩
        exact absurd hdd (by simp)
    · exact iff_of_true rfl (hiff2.1 hemp)
  · rw [if_neg (by simpa using hemp)]
    constructor
    · refine iff_of_true ?_ ⟨st2.1, rfl⟩
      have hne : ¬ ∀ l ∈ fileLines, gffLineProcessed reference l = false :=
        fun h => hemp (hiff2.2 h)
      push_neg at hne
      obtain ⟨l, hl, hp⟩ := hne
      refine ⟨l, hl, ?_⟩
      revert hp
      cases gffLineProcessed reference l <;> simp
    · refine iff_of_false (by simp) ?_
      intro h
      exact hemp (hiff2.2 h)

/-- Claim C9, as stated, is false on the code: this GFF3 line starts with
the reference `"r"` (its first field *is* `"r"`), yet `parse_gff3` aborts
with the reference-not-found message, because the line's attribute column
starts with `Parent=` rather than `ID=` and is skipped. -/
theorem C9_counterexample :
    pyStartsWith "r\tx\tgene\t1\t10\t.\t+\t.\tParent=g0" "r" = true ∧
    (pySplit '\t' "r\tx\tgene\t1\t10\t.\t+\t.\tParent=g0").headD "" = "r" ∧
    parse_gff3 ["r\tx\tgene\t1\t10\t.\t+\t.\tParent=g0"] "r" =
      .error "ERROR: r not found in gff3 file." := by
  refine ⟨by decide, by decide, by decide⟩

/-- Witness for `C9_parse_gff3`: a file whose single line is indexed makes
the parse return an index. -/
theorem C9_witness :
    ∃ dd, parse_gff3 ["r\tx\tgene\t3\t20\t.\t+\t.\tID=g1;Name=G"] "r" = .ok dd :=
  (C9_parse_gff3 ["r\tx\tgene\t3\t20\t.\t+\t.\tID=g1;Name=G"] "r" (by decide)).1.mp
    ⟨"r\tx\tgene\t3\t20\t.\t+\t.\tID=g1;Name=G", by decide, by decide⟩

/-! ## Claim C3 — uniform column lengths in `read_vcf` -/

/-- Appending values never changes the key column. -/
theorem dictKeys_appendMany (d : VDict) (k : String) (vs : List VVal) :
    dictKeys (appendMany d k vs) = dictKeys d := by
  unfold dictKeys appendMany
  rw [List.map_map]
  refine List.map_congr_left ?_
  intro p _
  by_cases h : p.1 = k <;> simp [h]

/-- The whole fill loop over one line acts entrywise: every entry receives,
in order, the concatenation of the contributions whose key matches it. -/
theorem fold_appendMany (ps : List (String × List VVal)) :
    ∀ d : VDict,
      ps.foldl (fun dd q => appendMany dd q.1 q.2) d =
        d.map (fun p => (p.1,
          p.2 ++ (((ps.filter (fun q => q.1 = p.1)).map (fun q => q.2)).flatten))) := by
  induction ps with
  | nil =>
    intro d
    simp only [List.foldl_nil, List.filter_nil, List.map_nil, List.flatten_nil,
      List.append_nil]
    exact (List.map_id d).symm
  | cons q ps ih =>
    intro d
    simp only [List.foldl_cons]
    rw [ih (appendMany d q.1 q.2)]
    unfold appendMany
    rw [List.map_map]
    refine List.map_congr_left ?_
    intro p _
    by_cases h : p.1 = q.1
    · simp only [Function.comp, if_pos h, List.filter_cons]
      rw [show (decide (q.1 = p.1)) = true from by simp [h.symm]]
      simp [List.append_assoc]
    · simp only [Function.comp, if_neg h, List.filter_cons]
      rw [show (decide (q.1 = p.1)) = false from by
        simp; exact fun hc => h hc.symm]
      simp

/-- The per-key contribution of one data line to the dictionary. -/
def contrib (hdr6 : List String) (line : List String) (dkeys : List String)
    (key : String) : List VVal :=
  (((linePairs hdr6 line dkeys).filter (fun q => q.1 = key)).map (fun q => q.2)).flatten

/-- `fillLine` in closed form. -/
theorem fillLine_eq (hdr6 : List String) (d : VDict) (line : List String) :
    fillLine hdr6 d line =
      d.map (fun p => (p.1, p.2 ++ contrib hdr6 line (dictKeys d) p.1)) :=
  fold_appendMany (linePairs hdr6 line (dictKeys d)) d

/-- Filling a line does not change the key column. -/
theorem dictKeys_fillLine (hdr6 : List String) (d : VDict) (line : List String) :
    dictKeys (fillLine hdr6 d line) = dictKeys d := by
  rw [fillLine_eq]
  unfold dictKeys
  rw [List.map_map]
  rfl

/-- Length of the matching contributions in one homogeneous segment:
`n` when the key occurs (keys distinct, all values of length `n`), `0`
otherwise. -/
theorem filterFlatten_length (key : String) (n : Nat) :
    ∀ ps : List (String × List VVal),
      (∀ q ∈ ps, q.2.length = n) → (ps.map (·.1)).Nodup →
      (((ps.filter (fun q => q.1 = key)).map (fun q => q.2)).flatten).length =
        if key ∈ ps.map (·.1) then n else 0 := by
  intro ps
  induction ps with
  | nil => intro _ _; simp
  | cons q ps ih =>
    intro hval hnd
    simp only [List.map_cons, List.nodup_cons] at hnd
    by_cases h : q.1 = key
    · rw [List.filter_cons_of_pos (by simp [h])]
      simp only [List.map_cons, List.flatten_cons, List.length_append]
      rw [ih (fun x hx => hval x (List.mem_cons_of_mem q hx)) hnd.2]
      rw [if_neg (by rw [h] at hnd; exact hnd.1)]
      rw [if_pos (by simp [h])]
      rw [hval q (List.mem_cons_self q ps)]
      omega
    · rw [List.filter_cons_of_neg (by simp [h])]
      rw [ih (fun x hx => hval x (List.mem_cons_of_mem q hx)) hnd.2]
      have : (key ∈ q.1 :: ps.map (·.1)) ↔ key ∈ ps.map (·.1) := by
        constructor
        · intro hm
          rcases List.mem_cons.1 hm with rfl | hm
          · exact absurd rfl h
          · exact hm
        · exact fun hm => List.mem_cons_of_mem _ hm
      simp only [List.map_cons]
      rw [if_congr this rfl rfl]

/-- The keys of the six-column segment are the six header names. -/
theorem sixPairs_keys (line : List String) (k : Nat) :
    ∀ (ks : List String) (idx : Nat), (sixPairs line k ks idx).map (·.1) = ks := by
  intro ks
  induction ks with
  | nil => intro idx; rfl
  | cons key rest ih =>
    intro idx
    simp only [sixPairs, List.map_cons]
    rw [ih (idx + 1)]

theorem sixColEntries_length (s : String) (k : Nat) :
    (sixColEntries s k).length = k := by
  simp [sixColEntries]

theorem sixPairs_vals (line : List String) (k : Nat) :
    ∀ (ks : List String) (idx : Nat), ∀ q ∈ sixPairs line k ks idx, q.2.length = k := by
  intro ks
  induction ks with
  | nil => intro idx q hq; simp [sixPairs] at hq
  | cons key rest ih =>
    intro idx q hq
    simp only [sixPairs] at hq
    rcases List.mem_cons.1 hq with rfl | hq
    · exact sixColEntries_length _ _
    · exact ih (idx + 1) q hq

theorem mutTypes_length (line : List String) : (mutTypes line).length = kOf line := by
  simp [mutTypes, kOf]

/-- Key-presence test of the dictionary, as a membership. -/
theorem vAny_iff (d : VDict) (k : String) :
    d.any (fun p => p.1 = k) = true ↔ k ∈ dictKeys d := by
  rw [List.any_eq_true]
  unfold dictKeys
  constructor
  · rintro ⟨p, hp, hpk⟩
    exact List.mem_map.2 ⟨p, hp, by simpa using hpk⟩
  · intro h
    rcases List.mem_map.1 h with ⟨p, hp, hpk⟩
    exact ⟨p, hp, by simpa using hpk⟩

/-- `d[k] = []` either keeps the key column or appends the new key. -/
theorem dictKeys_dictSet (d : VDict) (k : String) :
    dictKeys (dictSet d k) =
      if k ∈ dictKeys d then dictKeys d else dictKeys d ++ [k] := by
  unfold dictSet
  by_cases h : d.any (fun p => p.1 = k) = true
  · rw [if_pos h, if_pos ((vAny_iff d k).1 h)]
    unfold dictKeys
    rw [List.map_map]
    refine List.map_congr_left ?_
    intro p _
    by_cases hp : p.1 = k <;> simp [hp]
  · rw [if_neg h, if_neg (fun hm => h ((vAny_iff d k).2 hm))]
    simp [dictKeys]

theorem mem_dictKeys_dictSet_self (d : VDict) (k : String) :
    k ∈ dictKeys (dictSet d k) := by
  rw [dictKeys_dictSet]
  by_cases h : k ∈ dictKeys d
  · rw [if_pos h]; exact h
  · rw [if_neg h]; simp

theorem mem_dictKeys_dictSet_mono (d : VDict) (k kk : String) (h : kk ∈ dictKeys d) :
    kk ∈ dictKeys (dictSet d k) := by
  rw [dictKeys_dictSet]
  by_cases hm : k ∈ dictKeys d
  · rw [if_pos hm]; exact h
  · rw [if_neg hm]; exact List.mem_append_left _ h

theorem nodup_dictKeys_dictSet (d : VDict) (k : String)
    (h : (dictKeys d).Nodup) : (dictKeys (dictSet d k)).Nodup := by
  rw [dictKeys_dictSet]
  by_cases hm : k ∈ dictKeys d
  · rw [if_pos hm]; exact h
  · rw [if_neg hm]
    rw [List.nodup_append]
    exact ⟨h, List.nodup_singleton k, by
      intro a ha hb
      simp only [List.mem_singleton] at hb
      subst hb
      exact hm ha⟩

theorem dictSet_values (d : VDict) (k : String) (h : ∀ p ∈ d, p.2 = []) :
    ∀ p ∈ dictSet d k, p.2 = ([] : List VVal) := by
  unfold dictSet
  split
  · intro p hp
    rcases List.mem_map.1 hp with ⟨p0, hp0, rfl⟩
    by_cases h0 : p0.1 = k <;> simp [h0, h p0 hp0]
  · intro p hp
    rcases List.mem_append.1 hp with hp | hp
    · exact h p hp
    · simp only [List.mem_singleton] at hp
      subst hp
      rfl

/-- Values, nodup keys and key membership through a fold of `dictSet`s. -/
theorem foldl_dictSet_values {α : Type} (g : α → String) (xs : List α) :
    ∀ d : VDict, (∀ p ∈ d, p.2 = []) →
      ∀ p ∈ xs.foldl (fun dd x => dictSet dd (g x)) d, p.2 = ([] : List VVal) := by
  induction xs with
  | nil => exact fun d h => h
  | cons x xs ih =>
    intro d h
    exact ih (dictSet d (g x)) (dictSet_values d (g x) h)

theorem foldl_dictSet_nodup {α : Type} (g : α → String) (xs : List α) :
    ∀ d : VDict, (dictKeys d).Nodup →
      (dictKeys (xs.foldl (fun dd x => dictSet dd (g x)) d)).Nodup := by
  induction xs with
  | nil => exact fun d h => h
  | cons x xs ih =>
    intro d h
    exact ih (dictSet d (g x)) (nodup_dictKeys_dictSet d (g x) h)

theorem foldl_dictSet_mem_mono {α : Type} (g : α → String) (xs : List α) :
    ∀ (d : VDict) (kk : String), kk ∈ dictKeys d →
      kk ∈ dictKeys (xs.foldl (fun dd x => dictSet dd (g x)) d) := by
  induction xs with
  | nil => exact fun d kk h => h
  | cons x xs ih =>
    intro d kk h
    exact ih (dictSet d (g x)) kk (mem_dictKeys_dictSet_mono d (g x) kk h)

theorem foldl_dictSet_mem {α : Type} (g : α → String) (xs : List α) :
    ∀ (d : VDict) (x : α), x ∈ xs →
      g x ∈ dictKeys (xs.foldl (fun dd y => dictSet dd (g y)) d) := by
  induction xs with
  | nil => intro d x h; simp at h
  | cons y ys ih =>
    intro d x h
    rcases List.mem_cons.1 h with rfl | h
    · exact foldl_dictSet_mem_mono g ys (dictSet d (g x)) (g x)
        (mem_dictKeys_dictSet_self d (g x))
    · exact ih (dictSet d (g y)) x h

/-- The nested key-collection fold over all selected lines. -/
theorem initDict_info_fold {P : VDict → Prop}
    (hstep : ∀ (d : VDict) (e : String), P d → P (dictSet d (infoKeyOf e)))
    (lines : List (List String)) :
    ∀ d : VDict, P d →
      P (lines.foldl
        (fun dd line => (infoEntries line).foldl
          (fun ddd e => dictSet ddd (infoKeyOf e)) dd) d) := by
  have hinner : ∀ (es : List String) (d : VDict), P d →
      P (es.foldl (fun ddd e => dictSet ddd (infoKeyOf e)) d) := by
    intro es
    induction es with
    | nil => exact fun d h => h
    | cons e es ih => exact fun d h => ih (dictSet d (infoKeyOf e)) (hstep d e h)
  induction lines with
  | nil => exact fun d h => h
  | cons line lines ih =>
    intro d h
    exact ih _ (hinner (infoEntries line) d h)

theorem initDict_values (hdr6 : List String) (selected : List (List String)) :
    ∀ p ∈ initDict hdr6 selected, p.2 = ([] : List VVal) := by
  unfold initDict
  refine initDict_info_fold (fun d e h => dictSet_values d (infoKeyOf e) h) selected _ ?_
  refine dictSet_values _ "MUT_TYPE_" ?_
  exact foldl_dictSet_values (fun k => k) hdr6 [] (by simp)

theorem initDict_nodup (hdr6 : List String) (selected : List (List String)) :
    (dictKeys (initDict hdr6 selected)).Nodup := by
  unfold initDict
  refine initDict_info_fold (fun d e h => nodup_dictKeys_dictSet d (infoKeyOf e) h)
    selected _ ?_
  refine nodup_dictKeys_dictSet _ "MUT_TYPE_" ?_
  exact foldl_dictSet_nodup (fun k => k) hdr6 [] (by simp [dictKeys])

/-- Key membership through the per-line key-collection fold, from any
starting dictionary. -/
theorem foldl_lines_mem (lines : List (List String)) :
    ∀ (d : VDict) (line : List String), line ∈ lines →
      ∀ e ∈ infoEntries line,
        infoKeyOf e ∈ dictKeys (lines.foldl
          (fun dd l => (infoEntries l).foldl
            (fun ddd x => dictSet ddd (infoKeyOf x)) dd) d) := by
  induction lines with
  | nil => intro d line h; simp at h
  | cons l ls ih =>
    intro d line hline e he
    simp only [List.foldl_cons]
    rcases List.mem_cons.1 hline with rfl | hline
    · refine initDict_info_fold
        (fun dd ee h => mem_dictKeys_dictSet_mono dd (infoKeyOf ee) _ h) ls _ ?_
      exact foldl_dictSet_mem infoKeyOf (infoEntries line) d e he
    · exact ih _ line hline e he

/-- Every INFO key of every selected line is a key of the initial
dictionary. -/
theorem initDict_mem_info (hdr6 : List String) (selected : List (List String))
    (line : List String) (hline : line ∈ selected) (e : String)
    (he : e ∈ infoEntries line) :
    infoKeyOf e ∈ dictKeys (initDict hdr6 selected) := by
  unfold initDict
  exact foldl_lines_mem selected _ line hline e he

/-- Well-formedness of one selected VCF data line: eight or more fields,
distinct INFO keys that avoid the canonical column names, attributes with
a single `=`, and INFO value cardinality equal to the line's allele count
— the inputs on which the Python fill loop keeps columns aligned. -/
def LineWF (hdr6 : List String) (line : List String) : Prop :=
  8 ≤ line.length ∧
  (infoKeys line).Nodup ∧
  (∀ kk ∈ infoKeys line, kk ∉ hdr6 ++ ["MUT_TYPE_"]) ∧
  (∀ e ∈ infoEntries line,
    (pySplit '=' e).length = 2 ∧ (infoValsOf e).length = kOf line)

instance (hdr6 line : List String) : Decidable (LineWF hdr6 line) := by
  unfold LineWF
  infer_instance

/-- Length of the full per-line contribution to a key of the dictionary:
exactly `length_variants`, whatever role the key plays. -/
theorem contrib_length (hdr6 line dkeys : List String) (key : String)
    (hnd6 : (hdr6 ++ ["MUT_TYPE_"]).Nodup)
    (hind : (infoKeys line).Nodup)
    (hdisj : ∀ kk ∈ infoKeys line, kk ∉ hdr6 ++ ["MUT_TYPE_"])
    (hcard : ∀ e ∈ infoEntries line, (infoValsOf e).length = kOf line)
    (hknd : dkeys.Nodup) (hkey : key ∈ dkeys) :
    (contrib hdr6 line dkeys key).length = kOf line := by
  have H1 : ((((sixPairs line (kOf line) hdr6 0).filter
      (fun q => q.1 = key)).map (fun q => q.2)).flatten).length =
      if key ∈ hdr6 then kOf line else 0 := by
    rw [filterFlatten_length key (kOf line) _ (sixPairs_vals line (kOf line) hdr6 0)
      (by rw [sixPairs_keys]; exact hnd6.of_append_left)]
    rw [sixPairs_keys]
  have H2 : (((([("MUT_TYPE_", mutTypes line)]).filter
      (fun q => q.1 = key)).map (fun q => q.2)).flatten).length =
      if key = "MUT_TYPE_" then kOf line else 0 := by
    rw [filterFlatten_length key (kOf line) _
      (by
        intro q hq
        simp only [List.mem_singleton] at hq
        subst hq
        exact mutTypes_length line)
      (by simp)]
    simp only [List.map_cons, List.map_nil, List.mem_singleton]
  have H3keys : (((infoEntries line).map
      (fun e => (infoKeyOf e, infoValsOf e))).map (fun x => x.1)) = infoKeys line := by
    rw [List.map_map]
    rfl
  have H3 : (((((infoEntries line).map (fun e => (infoKeyOf e, infoValsOf e))).filter
      (fun q => q.1 = key)).map (fun q => q.2)).flatten).length =
      if key ∈ infoKeys line then kOf line else 0 := by
    rw [filterFlatten_length key (kOf line) _
      (by
        intro q hq
        rcases List.mem_map.1 hq with ⟨e, he, rfl⟩
        exact hcard e he)
      (by rw [H3keys]; exact hind)]
    rw [H3keys]
  have H4keys : (((dkeys.filter (fun kk => decide (kk ∉ visitedOf hdr6 line))).map
      (fun kk => (kk, List.replicate (kOf line) VVal.null))).map (fun x => x.1)) =
      dkeys.filter (fun kk => decide (kk ∉ visitedOf hdr6 line)) := by
    rw [List.map_map]
    exact List.map_id _
  have H4 : (((((dkeys.filter (fun kk => decide (kk ∉ visitedOf hdr6 line))).map
      (fun kk => (kk, List.replicate (kOf line) VVal.null))).filter
      (fun q => q.1 = key)).map (fun q => q.2)).flatten).length =
      if key ∈ dkeys ∧ key ∉ visitedOf hdr6 line then kOf line else 0 := by
    rw [filterFlatten_length key (kOf line) _
      (by
        intro q hq
        rcases List.mem_map.1 hq with ⟨kk, _, rfl⟩
        exact List.length_replicate _ _)
      (by rw [H4keys]; exact hknd.filter _)]
    rw [H4keys]
    by_cases h : key ∈ dkeys ∧ key ∉ visitedOf hdr6 line
    · rw [if_pos (List.mem_filter.2 ⟨h.1, by simp [h.2]⟩), if_pos h]
    · rw [if_neg (fun hm => h ⟨List.mem_of_mem_filter hm, by
          have := (List.mem_filter.1 hm).2
          simpa using this⟩), if_neg h]
  have hexpand : (contrib hdr6 line dkeys key).length =
      (if key ∈ hdr6 then kOf line else 0) +
      ((if key = "MUT_TYPE_" then kOf line else 0) +
      ((if key ∈ infoKeys line then kOf line else 0) +
      (if key ∈ dkeys ∧ key ∉ visitedOf hdr6 line then kOf line else 0))) := by
    unfold contrib linePairs
    rw [List.filter_append, List.filter_append, List.filter_append,
      List.map_append, List.map_append, List.map_append,
      List.flatten_append, List.flatten_append, List.flatten_append,
      List.length_append, List.length_append, List.length_append]
    rw [H1, H2, H3, H4]
    omega
  rw [hexpand]
  have hvis : ∀ kk, kk ∈ visitedOf hdr6 line ↔
      (kk ∈ hdr6 ∨ kk = "MUT_TYPE_" ∨ kk ∈ infoKeys line) := by
    intro kk
    unfold visitedOf
    simp [or_assoc]
  have hdisj6 : "MUT_TYPE_" ∉ hdr6 := by
    intro hm
    have := List.disjoint_of_nodup_append hnd6 hm
    simp at this
  by_cases h1 : key ∈ hdr6
  · have h2 : key ≠ "MUT_TYPE_" := fun he => hdisj6 (he ▸ h1)
    have h3 : key ∉ infoKeys line :=
      fun hm => hdisj key hm (List.mem_append_left _ h1)
    have h4 : ¬ (key ∈ dkeys ∧ key ∉ visitedOf hdr6 line) :=
      fun hc => hc.2 ((hvis key).2 (Or.inl h1))
    rw [if_pos h1, if_neg h2, if_neg h3, if_neg h4]
    omega
  · by_cases h2 : key = "MUT_TYPE_"
    · have h3 : key ∉ infoKeys line :=
        fun hm => hdisj key hm (List.mem_append_right _ (by simp [h2]))
      have h4 : ¬ (key ∈ dkeys ∧ key ∉ visitedOf hdr6 line) :=
        fun hc => hc.2 ((hvis key).2 (Or.inr (Or.inl h2)))
      rw [if_neg h1, if_pos h2, if_neg h3, if_neg h4]
      omega
    · by_cases h3 : key ∈ infoKeys line
      · have h4 : ¬ (key ∈ dkeys ∧ key ∉ visitedOf hdr6 line) :=
          fun hc => hc.2 ((hvis key).2 (Or.inr (Or.inr h3)))
        rw [if_neg h1, if_neg h2, if_pos h3, if_neg h4]
        omega
      · have h4 : key ∈ dkeys ∧ key ∉ visitedOf hdr6 line :=
          ⟨hkey, fun hm => by
            rcases (hvis key).1 hm with hm | hm | hm
            · exact h1 hm
            · exact h2 hm
            · exact h3 hm⟩
        rw [if_neg h1, if_neg h2, if_neg h3, if_pos h4]
        omega

/-- Lookup through an entrywise, key-respecting map. -/
theorem dlookup_map_keyfun (g : String → List VVal → List VVal) :
    ∀ (d : VDict) (kk : String),
      dlookup (d.map (fun p => (p.1, g p.1 p.2))) kk =
        (dlookup d kk).map (fun vs => g kk vs) := by
  intro d
  induction d with
  | nil => intro kk; rfl
  | cons p ps ih =>
    intro kk
    unfold dlookup
    by_cases h : p.1 = kk
    · rw [List.map_cons, List.find?_cons_of_pos _ (by simpa using h),
        List.find?_cons_of_pos _ (by simpa using h)]
      simp [h]
    · rw [List.map_cons, List.find?_cons_of_neg _ (by simpa using h),
        List.find?_cons_of_neg _ (by simpa using h)]
      exact ih kk

/-- Filtering a mapped key list for one distinct present key yields
exactly that key's pair. -/
theorem filter_pairs_of_nodup (v : List VVal) (key : String) :
    ∀ l : List String, l.Nodup → key ∈ l →
      ((l.map (fun kk => (kk, v))).filter (fun q => q.1 = key)) = [(key, v)] := by
  intro l
  induction l with
  | nil => intro _ h; simp at h
  | cons a l ih =>
    intro hnd hmem
    simp only [List.nodup_cons] at hnd
    rw [List.map_cons]
    by_cases h : a = key
    · rw [List.filter_cons_of_pos (by simp [h])]
      have hrest : ((l.map (fun kk => (kk, v))).filter (fun q => q.1 = key)) = [] := by
        rw [List.filter_eq_nil_iff]
        intro q hq
        rcases List.mem_map.1 hq with ⟨kk, hkk, rfl⟩
        simp only [decide_eq_true_eq]
        intro hc
        rw [← h] at hc
        exact hnd.1 (hc ▸ hkk)
      rw [hrest, h]
    · rw [List.filter_cons_of_neg (by simp [h])]
      refine ih hnd.2 ?_
      rcases List.mem_cons.1 hmem with rfl | hm
      · exact absurd rfl h
      · exact hm

/-- A key of the dictionary that the line does not visit receives exactly
`length_variants` explicit `None`s. -/
theorem contrib_eq_replicate (hdr6 line dkeys : List String) (key : String)
    (hknd : dkeys.Nodup) (hkey : key ∈ dkeys)
    (hnv : key ∉ visitedOf hdr6 line) :
    contrib hdr6 line dkeys key = List.replicate (kOf line) VVal.null := by
  have hvis : ∀ kk, kk ∈ visitedOf hdr6 line ↔
      (kk ∈ hdr6 ∨ kk = "MUT_TYPE_" ∨ kk ∈ infoKeys line) := by
    intro kk
    unfold visitedOf
    simp [or_assoc]
  have h1 : key ∉ hdr6 := fun h => hnv ((hvis key).2 (Or.inl h))
  have h2 : key ≠ "MUT_TYPE_" := fun h => hnv ((hvis key).2 (Or.inr (Or.inl h)))
  have h3 : key ∉ infoKeys line := fun h => hnv ((hvis key).2 (Or.inr (Or.inr h)))
  have F1 : ((sixPairs line (kOf line) hdr6 0).filter (fun q => q.1 = key)) = [] := by
    rw [List.filter_eq_nil_iff]
    intro q hq
    have : q.1 ∈ hdr6 := by
      rw [← sixPairs_keys line (kOf line) hdr6 0]
      exact List.mem_map.2 ⟨q, hq, rfl⟩
    simp only [decide_eq_true_eq]
    intro hc
    exact h1 (hc ▸ this)
  have F2 : (([("MUT_TYPE_", mutTypes line)]).filter (fun q => q.1 = key)) = [] := by
    rw [List.filter_eq_nil_iff]
    intro q hq
    simp only [List.mem_singleton] at hq
    subst hq
    simp only [decide_eq_true_eq]
    exact fun hc => h2 hc.symm
  have F3 : (((infoEntries line).map
      (fun e => (infoKeyOf e, infoValsOf e))).filter (fun q => q.1 = key)) = [] := by
    rw [List.filter_eq_nil_iff]
    intro q hq
    rcases List.mem_map.1 hq with ⟨e, he, rfl⟩
    simp only [decide_eq_true_eq]
    intro hc
    exact h3 (hc ▸ List.mem_map.2 ⟨e, he, rfl⟩)
  have F4 : (((dkeys.filter (fun kk => decide (kk ∉ visitedOf hdr6 line))).map
      (fun kk => (kk, List.replicate (kOf line) VVal.null))).filter
      (fun q => q.1 = key)) = [(key, List.replicate (kOf line) VVal.null)] := by
    refine filter_pairs_of_nodup _ key _ (hknd.filter _) ?_
    exact List.mem_filter.2 ⟨hkey, by simp [hnv]⟩
  unfold contrib linePairs
  rw [List.filter_append, List.filter_append, List.filter_append, F1, F2, F3, F4]
  simp

/-- Filling lines never changes the key column (iterated form). -/
theorem foldl_fillLine_keys (hdr6 : List String) (lines : List (List String)) :
    ∀ d : VDict, dictKeys (lines.foldl (fillLine hdr6) d) = dictKeys d := by
  induction lines with
  | nil => exact fun d => rfl
  | cons line ls ih =>
    intro d
    simp only [List.foldl_cons]
    rw [ih (fillLine hdr6 d line), dictKeys_fillLine]

/-- After filling all lines, every entry has grown by the total allele
count of the lines. -/
theorem foldl_fillLine_values (hdr6 : List String) (lines : List (List String)) :
    ∀ (d : VDict) (L : Nat),
      (∀ line ∈ lines, LineWF hdr6 line) →
      (hdr6 ++ ["MUT_TYPE_"]).Nodup →
      (dictKeys d).Nodup →
      (∀ p ∈ d, p.2.length = L) →
      ∀ p ∈ lines.foldl (fillLine hdr6) d, p.2.length = L + (lines.map kOf).sum := by
  induction lines with
  | nil =>
    intro d L _ _ _ hval p hp
    simpa using hval p hp
  | cons line ls ih =>
    intro d L hwf hnd6 hknd hval p hp
    simp only [List.foldl_cons] at hp
    obtain ⟨hw8, hwnd, hwdisj, hwent⟩ := hwf line (List.mem_cons_self line ls)
    have hfill : ∀ p ∈ fillLine hdr6 d line, p.2.length = L + kOf line := by
      intro p hp
      rw [fillLine_eq] at hp
      rcases List.mem_map.1 hp with ⟨p0, hp0, rfl⟩
      simp only [List.length_append]
      rw [hval p0 hp0, contrib_length hdr6 line (dictKeys d) p0.1 hnd6 hwnd hwdisj
        (fun e he => (hwent e he).2) hknd (List.mem_map.2 ⟨p0, hp0, rfl⟩)]
    have := ih (fillLine hdr6 d line) (L + kOf line)
      (fun l hl => hwf l (List.mem_cons_of_mem line hl)) hnd6
      (by rw [dictKeys_fillLine]; exact hknd) hfill p hp
    rw [this]
    simp only [List.map_cons, List.sum_cons]
    omega

/-- Claim C3 (amended): provided the file has a `#CHROM` header, the six
canonical column names together with `MUT_TYPE_` are distinct, and every
selected line is well-formed (eight or more fields, distinct INFO keys
disjoint from the canonical ones, single-`=` attributes, and INFO value
cardinality equal to the line's allele count), then: every key of the
dictionary returned by `read_vcf` maps to a list whose length is the total
allele count over all selected lines; every INFO key seen on any selected
line exists as a column; and a line lacking a key contributes exactly
`length_variants` explicit `None` values for it.  (Without the cardinality
condition the claim is false — see `C3_counterexample`.) -/
theorem C3_uniform_columns (fileLines : List String) (reference : String)
    (hhdr : headerLinesOf fileLines ≠ [])
    (hnd6 : (hdr6Of fileLines ++ ["MUT_TYPE_"]).Nodup)
    (hlines : ∀ line ∈ selectedOf fileLines reference, LineWF (hdr6Of fileLines) line) :
    (∀ p ∈ read_vcf fileLines reference,
      p.2.length = ((selectedOf fileLines reference).map kOf).sum) ∧
    (∀ line ∈ selectedOf fileLines reference, ∀ e ∈ infoEntries line,
      infoKeyOf e ∈ dictKeys (read_vcf fileLines reference)) ∧
    (∀ (d : VDict) (line : List String), (dictKeys d).Nodup →
      LineWF (hdr6Of fileLines) line → ∀ kk ∈ dictKeys d,
        kk ∉ visitedOf (hdr6Of fileLines) line →
        dlookup (fillLine (hdr6Of fileLines) d line) kk =
          (dlookup d kk).map (fun vs => vs ++ List.replicate (kOf line) VVal.null)) := by
  have hreq : read_vcf fileLines reference =
      (selectedOf fileLines reference).foldl (fillLine (hdr6Of fileLines))
        (initDict (hdr6Of fileLines) (selectedOf fileLines reference)) := by
    unfold read_vcf
    rw [if_neg (show ¬ (headerLinesOf fileLines).isEmpty = true from
      fun hc => hhdr (List.isEmpty_iff.1 hc))]
  refine ⟨?_, ?_, ?_⟩
  · rw [hreq]
    intro p hp
    have h := foldl_fillLine_values (hdr6Of fileLines) (selectedOf fileLines reference)
      (initDict (hdr6Of fileLines) (selectedOf fileLines reference)) 0 hlines hnd6
      (initDict_nodup _ _)
      (fun q hq => by rw [initDict_values _ _ q hq]; rfl) p hp
    simpa using h
  · intro line hline e he
    rw [hreq, foldl_fillLine_keys]
    exact initDict_mem_info _ _ line hline e he
  · intro d line hknd hwf kk hkk hnv
    rw [fillLine_eq,
      dlookup_map_keyfun (fun k vs => vs ++ contrib (hdr6Of fileLines) line (dictKeys d) k) d kk,
      contrib_eq_replicate (hdr6Of fileLines) line (dictKeys d) kk hknd hkk hnv]

/-- Claim C3, as stated, is false on the code: on a line with two ALT
alleles whose `AF` INFO value has a single comma-separated part, the `AF`
column receives one entry while `#CHROM` receives two — the key lists of
the returned dictionary do not all share one length. -/
theorem C3_counterexample :
    (dlookup (read_vcf ["#CHROM\tPOS\tID\tREF\tALT\tQUAL\tFILTER\tINFO",
      "r\t10\t.\tA\tT,G\t.\tPASS\tAF=0.5"] "r") "AF").map List.length = some 1 ∧
    (dlookup (read_vcf ["#CHROM\tPOS\tID\tREF\tALT\tQUAL\tFILTER\tINFO",
      "r\t10\t.\tA\tT,G\t.\tPASS\tAF=0.5"] "r") "#CHROM").map List.length = some 2 := by
  constructor
  · decide
  · decide

/-- Witness for `C3_uniform_columns` at a concrete one-line file: the `AF`
entry of the returned dictionary has the total allele count, `1`. -/
theorem C3_witness :
    (("AF", [VVal.int 1]) : String × List VVal).2.length = 1 :=
  (C3_uniform_columns ["#CHROM\tPOS\tID\tREF\tALT\tQUAL\tFILTER\tINFO",
      "r\t10\t.\tA\tT\t.\tPASS\tAF=1"] "r" (by decide) (by decide) (by decide)).1
    ("AF", [VVal.int 1]) (by decide)
